import Mathlib

/-!
Shallow embedding of the software rasterizer (framebuffer, renderer,
procedural mesh and noise library) and proofs of the specification claims.

Modelling conventions:
* `f32` scalars are modelled as exact rationals `ℚ`; depth values, which in the
  source include `f32::INFINITY`, are modelled as `WithTop ℚ` with `⊤` playing
  the role of `+∞`.
* `f32::sqrt` (reached through nalgebra's `normalize`) is modelled by the
  rational square-root approximation `Rat.sqrt`; no claim depends on the
  numeric value of a normalized vector.
* `usize`/`u32` indices are modelled as `ℕ`; `i32` values are modelled as
  their unsigned 32-bit patterns (`ℕ` below `2^32`) with explicit wrapping
  arithmetic, matching the source's `wrapping_mul`/`wrapping_add`.
* Rust indexing panics (`self.zbuffer[index]`, `mesh.indices[i + 1]`) are
  modelled with `Option`: `none` is a panic of the original program.
-/

namespace Lab5

/-! ## Basic vector types (nalgebra_glm Vec2/Vec3/Vec4, rational model) -/

structure Vec2 where
  x : ℚ
  y : ℚ
deriving DecidableEq, Repr

structure Vec3 where
  x : ℚ
  y : ℚ
  z : ℚ
deriving DecidableEq, Repr

structure Vec4 where
  x : ℚ
  y : ℚ
  z : ℚ
  w : ℚ
deriving DecidableEq, Repr

def Vec2.sub (a b : Vec2) : Vec2 := ⟨a.x - b.x, a.y - b.y⟩

def Vec2.dot (a b : Vec2) : ℚ := a.x * b.x + a.y * b.y

def Vec3.add (a b : Vec3) : Vec3 := ⟨a.x + b.x, a.y + b.y, a.z + b.z⟩

/-- Scalar multiple `v * s` of a `Vec3` (nalgebra's right scalar product). -/
def Vec3.smul (v : Vec3) (s : ℚ) : Vec3 := ⟨v.x * s, v.y * s, v.z * s⟩

/-- nalgebra `Vec3::normalize`, `v / ‖v‖`; the `f32` square root is modelled by
the rational approximation `Rat.sqrt`.  Division by zero yields the zero
vector (the source would produce NaN components; no claim inspects them). -/
def Vec3.normalize (v : Vec3) : Vec3 :=
  let m := Rat.sqrt (v.x * v.x + v.y * v.y + v.z * v.z)
  ⟨v.x / m, v.y / m, v.z / m⟩

def Vec4.xyz (v : Vec4) : Vec3 := ⟨v.x, v.y, v.z⟩

/-- Row-major 4×4 rational matrix (nalgebra_glm `Mat4`). -/
structure Mat4 where
  r0 : Vec4
  r1 : Vec4
  r2 : Vec4
  r3 : Vec4
deriving DecidableEq, Repr

def Vec4.dot (a b : Vec4) : ℚ := a.x * b.x + a.y * b.y + a.z * b.z + a.w * b.w

def Mat4.mulVec (m : Mat4) (v : Vec4) : Vec4 :=
  ⟨m.r0.dot v, m.r1.dot v, m.r2.dot v, m.r3.dot v⟩

def Mat4.col0 (m : Mat4) : Vec4 := ⟨m.r0.x, m.r1.x, m.r2.x, m.r3.x⟩
def Mat4.col1 (m : Mat4) : Vec4 := ⟨m.r0.y, m.r1.y, m.r2.y, m.r3.y⟩
def Mat4.col2 (m : Mat4) : Vec4 := ⟨m.r0.z, m.r1.z, m.r2.z, m.r3.z⟩
def Mat4.col3 (m : Mat4) : Vec4 := ⟨m.r0.w, m.r1.w, m.r2.w, m.r3.w⟩

def Mat4.mul (a b : Mat4) : Mat4 :=
  ⟨⟨a.r0.dot b.col0, a.r0.dot b.col1, a.r0.dot b.col2, a.r0.dot b.col3⟩,
   ⟨a.r1.dot b.col0, a.r1.dot b.col1, a.r1.dot b.col2, a.r1.dot b.col3⟩,
   ⟨a.r2.dot b.col0, a.r2.dot b.col1, a.r2.dot b.col2, a.r2.dot b.col3⟩,
   ⟨a.r3.dot b.col0, a.r3.dot b.col1, a.r3.dot b.col2, a.r3.dot b.col3⟩⟩

def Mat4.identity : Mat4 :=
  ⟨⟨1, 0, 0, 0⟩, ⟨0, 1, 0, 0⟩, ⟨0, 0, 1, 0⟩, ⟨0, 0, 0, 1⟩⟩

/-! ## framebuffer.rs -/

/-- `Color { r, g, b }`, three `u8` components. -/
structure Color where
  r : ℕ
  g : ℕ
  b : ℕ
deriving DecidableEq, Repr

/-- One RGBA pixel of the flat `Vec<u8>` colour buffer.  The source stores the
buffer as `width*height*4` bytes addressed as `index*4 + k`; every write made
through the API touches one aligned 4-byte group, so the buffer is modelled as
a list of 4-byte pixels. -/
structure Pixel where
  r : ℕ
  g : ℕ
  b : ℕ
  a : ℕ
deriving DecidableEq, Repr

structure Framebuffer where
  width : ℕ
  height : ℕ
  buffer : List Pixel
  zbuffer : List (WithTop ℚ)
deriving DecidableEq, Repr

namespace Framebuffer

/-- `Framebuffer::new`. -/
def new (width height : ℕ) : Framebuffer :=
  ⟨width, height, List.replicate (width * height) ⟨0, 0, 0, 0⟩,
   List.replicate (width * height) ⊤⟩

/-- The colour-plane write loop of `Framebuffer::clear`:
`for i in 0..width*height { buffer[i] = color with alpha 255 }`. -/
def clearLoop (px : Pixel) : ℕ → List Pixel → List Pixel
  | 0, b => b
  | n + 1, b => (clearLoop px n b).set n px

/-- `Framebuffer::clear`: paints every pixel of the colour plane and resets the
whole depth plane (`Vec::fill`) to `+∞`. -/
def clear (fb : Framebuffer) (color : Color) : Framebuffer :=
  { fb with
    buffer := clearLoop ⟨color.r, color.g, color.b, 255⟩ (fb.width * fb.height) fb.buffer,
    zbuffer := fb.zbuffer.map fun _ => ⊤ }

/-- `Framebuffer::set_pixel`: bounds check, then depth test `depth < zbuffer[index]`.
The `none` branch corresponds to the out-of-bounds panic of `self.zbuffer[index]`,
unreachable whenever `zbuffer` has `width*height` entries. -/
def set_pixel (fb : Framebuffer) (x y : ℕ) (color : Color) (depth : WithTop ℚ) :
    Framebuffer :=
  if fb.width ≤ x ∨ fb.height ≤ y then fb
  else
    let index := y * fb.width + x
    match fb.zbuffer.get? index with
    | none => fb
    | some z =>
      if depth < z then
        { fb with
          zbuffer := fb.zbuffer.set index depth,
          buffer := fb.buffer.set index ⟨color.r, color.g, color.b, 255⟩ }
      else fb

end Framebuffer

/-! ## Helper lemmas about the framebuffer loops -/

theorem clearLoop_length (px : Pixel) (n : ℕ) (b : List Pixel) :
    (Framebuffer.clearLoop px n b).length = b.length := by
  induction n with
  | zero => rfl
  | succ n ih => simp [Framebuffer.clearLoop, ih]

theorem clearLoop_get? (px : Pixel) (n : ℕ) (b : List Pixel) (i : ℕ) :
    (Framebuffer.clearLoop px n b).get? i =
      if i < n ∧ i < b.length then some px else b.get? i := by
  induction n with
  | zero => simp [Framebuffer.clearLoop]
  | succ n ih =>
    simp only [Framebuffer.clearLoop, List.get?_eq_getElem?]
    rcases Nat.lt_trichotomy i n with h | h | h
    · rw [List.getElem?_set_ne (by omega)]
      simp only [List.get?_eq_getElem?] at ih
      rw [ih]
      by_cases hb : i < b.length
      · simp only [h, hb, and_self, if_true]
        have hsucc : i < n + 1 ∧ i < b.length := ⟨by omega, hb⟩
        simp [hsucc]
      · simp [hb]
    · subst h
      by_cases hb : i < b.length
      · rw [List.getElem?_set_self (by rw [clearLoop_length]; exact hb)]
        simp [hb]
      · rw [List.getElem?_set_self']
        simp only [List.get?_eq_getElem?] at ih
        rw [ih]
        simp only [Nat.lt_irrefl, false_and, if_false, hb, and_false]
        rw [List.getElem?_eq_none (by omega)]
        simp
    · rw [List.getElem?_set_ne (by omega)]
      simp only [List.get?_eq_getElem?] at ih
      rw [ih]
      have h1 : ¬ (i < n ∧ i < b.length) := by omega
      have h2 : ¬ (i < n + 1 ∧ i < b.length) := by omega
      simp [h1, h2]

/-- Injectivity of the row-major pixel index `y * w + x` for in-bounds columns. -/
theorem pixel_index_inj {w x1 x2 y1 y2 : ℕ} (h1 : x1 < w) (h2 : x2 < w)
    (he : y1 * w + x1 = y2 * w + x2) : x1 = x2 ∧ y1 = y2 := by
  have hx1 : (y1 * w + x1) % w = x1 := by
    rw [Nat.mul_comm, Nat.mul_add_mod]; exact Nat.mod_eq_of_lt h1
  have hx2 : (y2 * w + x2) % w = x2 := by
    rw [Nat.mul_comm, Nat.mul_add_mod]; exact Nat.mod_eq_of_lt h2
  have hx : x1 = x2 := by rw [← hx1, ← hx2, he]
  refine ⟨hx, ?_⟩
  have hw : 0 < w := Nat.lt_of_le_of_lt (Nat.zero_le x1) h1
  subst hx
  have hy : y1 * w = y2 * w := Nat.add_right_cancel he
  exact Nat.eq_of_mul_eq_mul_right hw hy

/-! ## Claim theorems for the framebuffer -/

/-- Claim C1: for an in-bounds coordinate pair, `set_pixel` writes the colour
(with alpha 255) and the new depth exactly when the supplied depth is strictly
below the stored depth, and otherwise leaves the framebuffer unchanged; for an
out-of-bounds coordinate pair the framebuffer is left entirely unchanged. -/
theorem set_pixel_spec (fb : Framebuffer) (x y : ℕ) (c : Color) (d : WithTop ℚ) :
    (∀ z, x < fb.width → y < fb.height →
      fb.zbuffer.get? (y * fb.width + x) = some z →
      ((d < z → fb.set_pixel x y c d =
          { fb with
            buffer := fb.buffer.set (y * fb.width + x) ⟨c.r, c.g, c.b, 255⟩,
            zbuffer := fb.zbuffer.set (y * fb.width + x) d }) ∧
       (¬ d < z → fb.set_pixel x y c d = fb))) ∧
    ((fb.width ≤ x ∨ fb.height ≤ y) → fb.set_pixel x y c d = fb) := by
  constructor
  · intro z hx hy hz
    have hin : ¬ (fb.width ≤ x ∨ fb.height ≤ y) := by omega
    constructor
    · intro hd
      simp only [Framebuffer.set_pixel, if_neg hin, hz, hd, if_pos]
    · intro hd
      simp only [Framebuffer.set_pixel, if_neg hin, hz, hd, if_false]
  · intro hout
    simp only [Framebuffer.set_pixel, if_pos hout]

/-- Witness for C1: a concrete in-bounds accepted write on a 1×1 framebuffer. -/
theorem set_pixel_spec_witness :
    (⟨1, 1, [⟨0, 0, 0, 0⟩], [⊤]⟩ : Framebuffer).set_pixel 0 0 ⟨9, 8, 7⟩
        (((1 : ℚ) : WithTop ℚ)) =
      ⟨1, 1, [⟨9, 8, 7, 255⟩], [((1 : ℚ) : WithTop ℚ)]⟩ := by
  have h := ((set_pixel_spec ⟨1, 1, [⟨0, 0, 0, 0⟩], [⊤]⟩ 0 0 ⟨9, 8, 7⟩
      (((1 : ℚ) : WithTop ℚ))).1 ⊤ (by decide) (by decide) rfl).1 (by decide)
  exact h.trans (by decide)

/-- Claim C5: right after `clear c`, every pixel of the colour plane equals `c`
at alpha 255 and every entry of the depth plane equals `+∞`.  The hypothesis is
the structural invariant that the colour plane has `width*height` pixels, which
`new`, `clear` and `set_pixel` all maintain. -/
theorem clear_spec (fb : Framebuffer) (c : Color)
    (hbuf : fb.buffer.length = fb.width * fb.height) :
    (fb.clear c).buffer = List.replicate (fb.width * fb.height) ⟨c.r, c.g, c.b, 255⟩ ∧
    ∀ d ∈ (fb.clear c).zbuffer, d = ⊤ := by
  constructor
  · apply List.ext_get?
    intro i
    rw [Framebuffer.clear]
    simp only
    rw [clearLoop_get?, hbuf]
    by_cases h : i < fb.width * fb.height
    · simp [h, List.get?_eq_getElem?]
    · simp only [h, false_and, if_false, List.get?_eq_getElem?]
      rw [List.getElem?_eq_none (by omega), List.getElem?_eq_none (by simp; omega)]
  · intro d hd
    rw [Framebuffer.clear] at hd
    simp only [List.mem_map] at hd
    obtain ⟨_, _, h⟩ := hd
    exact h.symm

/-- Witness for C5: clearing a concrete 2×1 framebuffer. -/
theorem clear_spec_witness :
    ((⟨2, 1, [⟨1, 2, 3, 4⟩, ⟨5, 6, 7, 8⟩], [(3 : ℚ), ⊤]⟩ : Framebuffer).clear
        ⟨10, 20, 30⟩).buffer = List.replicate 2 ⟨10, 20, 30, 255⟩ ∧
    ∀ d ∈ ((⟨2, 1, [⟨1, 2, 3, 4⟩, ⟨5, 6, 7, 8⟩], [(3 : ℚ), ⊤]⟩ : Framebuffer).clear
        ⟨10, 20, 30⟩).zbuffer, d = ⊤ :=
  clear_spec ⟨2, 1, [⟨1, 2, 3, 4⟩, ⟨5, 6, 7, 8⟩], [(3 : ℚ), ⊤]⟩ ⟨10, 20, 30⟩ (by decide)

/-- Claim C10: `set_pixel` never touches any pixel position other than its
argument, leaves the target pixel unchanged whenever the write is rejected
(out of bounds, or depth test failed), and no operation modifies the
framebuffer's dimensions. -/
theorem set_pixel_frame (fb : Framebuffer) (x y : ℕ) (c c2 : Color) (d : WithTop ℚ) :
    (fb.set_pixel x y c d).width = fb.width ∧
    (fb.set_pixel x y c d).height = fb.height ∧
    (fb.clear c2).width = fb.width ∧
    (fb.clear c2).height = fb.height ∧
    (∀ x2 y2, x2 < fb.width → y2 < fb.height → (x2, y2) ≠ (x, y) →
      (fb.set_pixel x y c d).buffer.get? (y2 * fb.width + x2) =
        fb.buffer.get? (y2 * fb.width + x2) ∧
      (fb.set_pixel x y c d).zbuffer.get? (y2 * fb.width + x2) =
        fb.zbuffer.get? (y2 * fb.width + x2)) ∧
    ((fb.width ≤ x ∨ fb.height ≤ y) → fb.set_pixel x y c d = fb) ∧
    (∀ z, fb.zbuffer.get? (y * fb.width + x) = some z → ¬ d < z →
      fb.set_pixel x y c d = fb) := by
  by_cases hout : fb.width ≤ x ∨ fb.height ≤ y
  · have hres : fb.set_pixel x y c d = fb := by
      simp only [Framebuffer.set_pixel, if_pos hout]
    exact ⟨by rw [hres], by rw [hres], rfl, rfl,
      fun _ _ _ _ _ => ⟨by rw [hres], by rw [hres]⟩, fun _ => hres, fun _ _ _ => hres⟩
  · have hx : x < fb.width := by omega
    rcases hzc : fb.zbuffer.get? (y * fb.width + x) with _ | z
    · have hres : fb.set_pixel x y c d = fb := by
        simp only [Framebuffer.set_pixel, if_neg hout, hzc]
      exact ⟨by rw [hres], by rw [hres], rfl, rfl,
        fun _ _ _ _ _ => ⟨by rw [hres], by rw [hres]⟩, fun h => absurd h hout,
        fun z2 hz2 _ => by cases hz2⟩
    · by_cases hd : d < z
      · have hres : fb.set_pixel x y c d =
            { fb with
              zbuffer := fb.zbuffer.set (y * fb.width + x) d,
              buffer := fb.buffer.set (y * fb.width + x) ⟨c.r, c.g, c.b, 255⟩ } := by
          simp only [Framebuffer.set_pixel, if_neg hout, hzc, if_pos hd]
        refine ⟨by rw [hres], by rw [hres], rfl, rfl, ?_, fun h => absurd h hout, ?_⟩
        · intro x2 y2 hx2 hy2 hne
          have hidx : y2 * fb.width + x2 ≠ y * fb.width + x := by
            intro he
            obtain ⟨he1, he2⟩ := pixel_index_inj hx2 hx he
            exact hne (by rw [he1, he2])
          rw [hres]
          constructor
          · simp only [List.get?_eq_getElem?]
            exact List.getElem?_set_ne (fun h => hidx h.symm)
          · simp only [List.get?_eq_getElem?]
            exact List.getElem?_set_ne (fun h => hidx h.symm)
        · intro z2 hz2 hd2
          injection hz2 with hz2e
          exact absurd (hz2e ▸ hd) hd2
      · have hres : fb.set_pixel x y c d = fb := by
          simp only [Framebuffer.set_pixel, if_neg hout, hzc, if_neg hd]
        exact ⟨by rw [hres], by rw [hres], rfl, rfl,
          fun _ _ _ _ _ => ⟨by rw [hres], by rw [hres]⟩, fun _ => hres,
          fun _ _ _ => hres⟩

/-- Witness for C10: on a concrete 2×1 framebuffer, writing pixel (0,0) leaves
pixel (1,0) untouched, and a rejected write leaves everything unchanged. -/
theorem set_pixel_frame_witness :
    ((⟨2, 1, [⟨1, 1, 1, 1⟩, ⟨2, 2, 2, 2⟩], [(5 : ℚ), (6 : ℚ)]⟩ : Framebuffer).set_pixel
        0 0 ⟨9, 9, 9⟩ ((1 : ℚ))).buffer.get? 1 = some ⟨2, 2, 2, 2⟩ ∧
    (⟨2, 1, [⟨1, 1, 1, 1⟩, ⟨2, 2, 2, 2⟩], [(5 : ℚ), (6 : ℚ)]⟩ : Framebuffer).set_pixel
        0 0 ⟨9, 9, 9⟩ ((7 : ℚ)) =
      ⟨2, 1, [⟨1, 1, 1, 1⟩, ⟨2, 2, 2, 2⟩], [(5 : ℚ), (6 : ℚ)]⟩ := by
  constructor
  · have h := ((set_pixel_frame ⟨2, 1, [⟨1, 1, 1, 1⟩, ⟨2, 2, 2, 2⟩],
        [(5 : ℚ), (6 : ℚ)]⟩ 0 0 ⟨9, 9, 9⟩ ⟨0, 0, 0⟩ ((1 : ℚ))).2.2.2.2.1) 1 0
        (by decide) (by decide) (by decide)
    exact h.1.trans (by decide)
  · exact ((set_pixel_frame ⟨2, 1, [⟨1, 1, 1, 1⟩, ⟨2, 2, 2, 2⟩],
        [(5 : ℚ), (6 : ℚ)]⟩ 0 0 ⟨9, 9, 9⟩ ⟨0, 0, 0⟩ ((7 : ℚ))).2.2.2.2.2.2) 5 rfl
        (by decide)

/-! ## renderer.rs : data types -/

/-- `Renderer { width, height }`; the source stores the screen size as `f32`. -/
structure Renderer where
  width : ℚ
  height : ℚ
deriving DecidableEq, Repr

/-- mesh.rs `Vertex { position, normal }` (rational coordinate model). -/
structure Vertex where
  position : Vec3
  normal : Vec3
deriving DecidableEq, Repr

/-- mesh.rs `ObjMesh { vertices, indices }`; `u32` indices as `ℕ`. -/
structure ObjMesh where
  vertices : List Vertex
  indices : List ℕ
deriving DecidableEq, Repr

structure TransformedVertex where
  screen_pos : Vec2
  depth : ℚ
  world_pos : Vec3
  world_normal : Vec3
deriving DecidableEq, Repr

/-- The `&dyn StarShader` fragment shader: a pure function of world position,
world normal and time. -/
def Shader : Type := Vec3 → Vec3 → ℚ → Color

/-- `f32::floor` (exact on rationals). -/
def ratFloor (q : ℚ) : ℚ := (⌊q⌋ : ℚ)

/-- `f32::ceil`. -/
def ratCeil (q : ℚ) : ℚ := (⌈q⌉ : ℚ)

/-- Rust `as usize` on an `f32`: truncation toward zero with saturation at 0
for negative values (huge values irrelevant here).  On the already-integral
results of `floor`/`ceil` this is `Int.toNat ∘ Int.floor`. -/
def ratToUsize (q : ℚ) : ℕ := (⌊q⌋).toNat

/-! ## renderer.rs : barycentric -/

/-- The Gram determinant `d00*d11 - d01*d01` tested against `1e-8` inside
`barycentric` (named so the degeneracy threshold can be stated). -/
def baryDenom (a b c : Vec2) : ℚ :=
  let v0 := b.sub a
  let v1 := c.sub a
  v0.dot v0 * (v1.dot v1) - v0.dot v1 * (v0.dot v1)

/-- `barycentric(p, a, b, c)` from renderer.rs. -/
def barycentric (p a b c : Vec2) : ℚ × ℚ × ℚ :=
  let v0 := b.sub a
  let v1 := c.sub a
  let v2 := p.sub a
  let d00 := v0.dot v0
  let d01 := v0.dot v1
  let d11 := v1.dot v1
  let d20 := v2.dot v0
  let d21 := v2.dot v1
  let denom := d00 * d11 - d01 * d01
  if |denom| < 1 / 100000000 then (0, 0, 0)
  else
    let v := (d11 * d20 - d01 * d21) / denom
    let w := (d00 * d21 - d01 * d20) / denom
    let u := 1 - v - w
    (u, v, w)

/-! ## renderer.rs : vertex transform and rasterization -/

/-- `Renderer::transform_vertex`. -/
def transform_vertex (rend : Renderer) (vertex : Vertex) (model_matrix mvp : Mat4) :
    TransformedVertex :=
  let pos4 : Vec4 := ⟨vertex.position.x, vertex.position.y, vertex.position.z, 1⟩
  let world_pos := model_matrix.mulVec pos4
  let normal4 : Vec4 := ⟨vertex.normal.x, vertex.normal.y, vertex.normal.z, 0⟩
  let world_normal := (model_matrix.mulVec normal4).xyz.normalize
  let clip_pos := mvp.mulVec pos4
  let w := clip_pos.w
  if |w| < 1 / 1000000 then
    ⟨⟨-1000, -1000⟩, 1, world_pos.xyz, world_normal⟩
  else
    let ndc : Vec3 := ⟨clip_pos.x / w, clip_pos.y / w, clip_pos.z / w⟩
    let screen : Vec2 :=
      ⟨(ndc.x + 1) * (1 / 2) * rend.width, (1 - ndc.y) * (1 / 2) * rend.height⟩
    ⟨screen, ndc.z, world_pos.xyz, world_normal⟩

/-- The body of the per-pixel loop of `Renderer::rasterize_triangle`:
barycentric coverage test, attribute interpolation, fragment shading and the
depth-tested write. -/
def pixelStep (v0 v1 v2 : TransformedVertex) (shader : Shader) (time : ℚ)
    (fb : Framebuffer) (x y : ℕ) : Framebuffer :=
  let p : Vec2 := ⟨(x : ℚ) + 1 / 2, (y : ℚ) + 1 / 2⟩
  let bw := barycentric p v0.screen_pos v1.screen_pos v2.screen_pos
  let w0 := bw.1
  let w1 := bw.2.1
  let w2 := bw.2.2
  if 0 ≤ w0 ∧ 0 ≤ w1 ∧ 0 ≤ w2 then
    let depth := w0 * v0.depth + w1 * v1.depth + w2 * v2.depth
    let world_pos := ((v0.world_pos.smul w0).add (v1.world_pos.smul w1)).add
      (v2.world_pos.smul w2)
    let world_normal := (((v0.world_normal.smul w0).add (v1.world_normal.smul w1)).add
      (v2.world_normal.smul w2)).normalize
    let color := shader world_pos world_normal time
    fb.set_pixel x y color ((depth : ℚ) : WithTop ℚ)
  else fb

/-- Rust's inclusive range `lo..=hi` as a list (empty when `hi < lo`). -/
def rangeIncl (lo hi : ℕ) : List ℕ := (List.range (hi + 1 - lo)).map (· + lo)

/-- `Renderer::rasterize_triangle`: clamped bounding box, then the row/column
pixel loops. -/
def rasterize_triangle (rend : Renderer) (fb : Framebuffer)
    (v0 v1 v2 : TransformedVertex) (shader : Shader) (time : ℚ) : Framebuffer :=
  let min_x := ratToUsize
    (max (ratFloor (min (min v0.screen_pos.x v1.screen_pos.x) v2.screen_pos.x)) 0)
  let max_x := ratToUsize
    (min (ratCeil (max (max v0.screen_pos.x v1.screen_pos.x) v2.screen_pos.x))
      (rend.width - 1))
  let min_y := ratToUsize
    (max (ratFloor (min (min v0.screen_pos.y v1.screen_pos.y) v2.screen_pos.y)) 0)
  let max_y := ratToUsize
    (min (ratCeil (max (max v0.screen_pos.y v1.screen_pos.y) v2.screen_pos.y))
      (rend.height - 1))
  (rangeIncl min_y max_y).foldl
    (fun fbY y =>
      (rangeIncl min_x max_x).foldl (fun fbX x => pixelStep v0 v1 v2 shader time fbX x y)
        fbY)
    fb

/-- One iteration of the triangle loop of `Renderer::render_mesh` at index
triple start `i`: the list indexing `mesh.indices[i]`, `[i + 1]`, `[i + 2]`
panics (here: `none`) when out of bounds; the vertex-range check matches the
source's `i0 < len && i1 < len && i2 < len` guard, whose failure skips the
triangle. -/
def renderTriangle (rend : Renderer) (shader : Shader) (time : ℚ)
    (tv : List TransformedVertex) (indices : List ℕ) (fb : Framebuffer) (i : ℕ) :
    Option Framebuffer := do
  let i0 ← indices.get? i
  let i1 ← indices.get? (i + 1)
  let i2 ← indices.get? (i + 2)
  match tv.get? i0, tv.get? i1, tv.get? i2 with
  | some t0, some t1, some t2 => pure (rasterize_triangle rend fb t0 t1 t2 shader time)
  | _, _, _ => pure fb

/-- `Renderer::render_mesh`: MVP product, vertex transform of every vertex,
then the triangle loop `for i in (0..indices.len()).step_by(3)`. -/
def render_mesh (rend : Renderer) (fb : Framebuffer) (mesh : ObjMesh)
    (shader : Shader) (model_matrix view_matrix projection_matrix : Mat4)
    (time : ℚ) : Option Framebuffer :=
  let mvp := (projection_matrix.mul view_matrix).mul model_matrix
  let transformed_vertices :=
    mesh.vertices.map fun v => transform_vertex rend v model_matrix mvp
  ((List.range mesh.indices.length).filter fun i => i % 3 == 0).foldlM
    (renderTriangle rend shader time transformed_vertices mesh.indices) fb

/-! ## Claim C6 : the degenerate-w guard of transform_vertex -/

/-- Claim C6: when the clip-space `w` has magnitude below `1e-6`,
`transform_vertex` performs no perspective divide and yields screen position
`(-1000, -1000)` with depth 1; otherwise it divides by a `w` of magnitude at
least `1e-6`, producing the NDC-mapped screen position and depth. -/
theorem transform_vertex_spec (rend : Renderer) (v : Vertex) (model mvp : Mat4) :
    (|(mvp.mulVec ⟨v.position.x, v.position.y, v.position.z, 1⟩).w| < 1 / 1000000 →
      (transform_vertex rend v model mvp).screen_pos = ⟨-1000, -1000⟩ ∧
      (transform_vertex rend v model mvp).depth = 1) ∧
    (1 / 1000000 ≤ |(mvp.mulVec ⟨v.position.x, v.position.y, v.position.z, 1⟩).w| →
      (transform_vertex rend v model mvp).screen_pos =
        ⟨((mvp.mulVec ⟨v.position.x, v.position.y, v.position.z, 1⟩).x /
            (mvp.mulVec ⟨v.position.x, v.position.y, v.position.z, 1⟩).w + 1) *
          (1 / 2) * rend.width,
         (1 - (mvp.mulVec ⟨v.position.x, v.position.y, v.position.z, 1⟩).y /
            (mvp.mulVec ⟨v.position.x, v.position.y, v.position.z, 1⟩).w) *
          (1 / 2) * rend.height⟩ ∧
      (transform_vertex rend v model mvp).depth =
        (mvp.mulVec ⟨v.position.x, v.position.y, v.position.z, 1⟩).z /
          (mvp.mulVec ⟨v.position.x, v.position.y, v.position.z, 1⟩).w) := by
  constructor
  · intro hw
    rw [transform_vertex]
    simp only [hw, if_pos]
    exact ⟨by trivial, by trivial⟩
  · intro hw
    have hn : ¬ |(mvp.mulVec ⟨v.position.x, v.position.y, v.position.z, 1⟩).w| <
        1 / 1000000 := not_lt.2 hw
    rw [transform_vertex]
    simp only [hn, if_false]
    exact ⟨by trivial, by trivial⟩

/-- Witness for C6: a zero fourth matrix row triggers the degenerate guard; the
identity matrix takes the dividing branch. -/
theorem transform_vertex_spec_witness :
    (transform_vertex ⟨100, 50⟩ ⟨⟨0, 0, 0⟩, ⟨0, 0, 1⟩⟩ Mat4.identity
        ⟨⟨1, 0, 0, 0⟩, ⟨0, 1, 0, 0⟩, ⟨0, 0, 1, 0⟩, ⟨0, 0, 0, 0⟩⟩).screen_pos =
      ⟨-1000, -1000⟩ ∧
    (transform_vertex ⟨100, 50⟩ ⟨⟨0, 0, 0⟩, ⟨0, 0, 1⟩⟩ Mat4.identity
        Mat4.identity).depth = 0 := by
  constructor
  · exact ((transform_vertex_spec ⟨100, 50⟩ ⟨⟨0, 0, 0⟩, ⟨0, 0, 1⟩⟩ Mat4.identity
      ⟨⟨1, 0, 0, 0⟩, ⟨0, 1, 0, 0⟩, ⟨0, 0, 1, 0⟩, ⟨0, 0, 0, 0⟩⟩).1
      (by norm_num [Mat4.mulVec, Vec4.dot])).1
  · have h := ((transform_vertex_spec ⟨100, 50⟩ ⟨⟨0, 0, 0⟩, ⟨0, 0, 1⟩⟩ Mat4.identity
      Mat4.identity).2 (by norm_num [Mat4.mulVec, Vec4.dot, Mat4.identity])).2
    rw [h]
    norm_num [Mat4.mulVec, Vec4.dot, Mat4.identity]

/-! ## Claim C7 : barycentric coordinates -/

/-- A point strictly inside the triangle `a b c`: a convex combination with
three strictly positive weights. -/
def insideTriangle (p a b c : Vec2) : Prop :=
  ∃ u v w : ℚ, 0 < u ∧ 0 < v ∧ 0 < w ∧ u + v + w = 1 ∧
    p.x = u * a.x + v * b.x + w * c.x ∧ p.y = u * a.y + v * b.y + w * c.y

/-- A point outside the (closed) triangle `a b c`: not expressible as a convex
combination of the three vertices. -/
def outsideTriangle (p a b c : Vec2) : Prop :=
  ¬ ∃ u v w : ℚ, 0 ≤ u ∧ 0 ≤ v ∧ 0 ≤ w ∧ u + v + w = 1 ∧
    p.x = u * a.x + v * b.x + w * c.x ∧ p.y = u * a.y + v * b.y + w * c.y

/-- The solved weights reproduce the query point: scalar core of the
barycentric system, for a nonzero Gram determinant. -/
theorem bary_repr (a1 a2 b1 b2 c1 c2 p1 p2 d00 d01 d11 d20 d21 dnm v w : ℚ)
    (h00 : d00 = (b1 - a1) * (b1 - a1) + (b2 - a2) * (b2 - a2))
    (h01 : d01 = (b1 - a1) * (c1 - a1) + (b2 - a2) * (c2 - a2))
    (h11 : d11 = (c1 - a1) * (c1 - a1) + (c2 - a2) * (c2 - a2))
    (h20 : d20 = (p1 - a1) * (b1 - a1) + (p2 - a2) * (b2 - a2))
    (h21 : d21 = (p1 - a1) * (c1 - a1) + (p2 - a2) * (c2 - a2))
    (hdnm : dnm = d00 * d11 - d01 * d01)
    (hne : dnm ≠ 0)
    (hv : v = (d11 * d20 - d01 * d21) / dnm)
    (hw : w = (d00 * d21 - d01 * d20) / dnm) :
    p1 = (1 - v - w) * a1 + v * b1 + w * c1 ∧
    p2 = (1 - v - w) * a2 + v * b2 + w * c2 := by
  subst h00 h01 h11 h20 h21 hdnm hv hw
  constructor
  · field_simp
    ring
  · field_simp
    ring

/-- Barycentric weights are unique for a nondegenerate triangle: scalar core. -/
theorem bary_unique (a1 a2 b1 b2 c1 c2 v w v0 w0 : ℚ)
    (hcne : (b1 - a1) * (c2 - a2) - (b2 - a2) * (c1 - a1) ≠ 0)
    (e1 : (v - v0) * (b1 - a1) + (w - w0) * (c1 - a1) = 0)
    (e2 : (v - v0) * (b2 - a2) + (w - w0) * (c2 - a2) = 0) :
    v = v0 ∧ w = w0 := by
  have hv : (v - v0) * ((b1 - a1) * (c2 - a2) - (b2 - a2) * (c1 - a1)) = 0 := by
    linear_combination (c2 - a2) * e1 - (c1 - a1) * e2
  have hw : (w - w0) * ((b1 - a1) * (c2 - a2) - (b2 - a2) * (c1 - a1)) = 0 := by
    linear_combination (b1 - a1) * e2 - (b2 - a2) * e1
  constructor
  · rcases mul_eq_zero.1 hv with h | h
    · linarith [h]
    · exact absurd h hcne
  · rcases mul_eq_zero.1 hw with h | h
    · linarith [h]
    · exact absurd h hcne

/-- Claim C7: for a triangle whose barycentric denominator has magnitude at
least `1e-8`, the weights returned by `barycentric` sum to 1 and are all
non-negative at every point strictly inside the triangle, and at least one
weight is negative at every point outside the triangle. -/
theorem barycentric_spec (p a b c : Vec2)
    (hden : 1 / 100000000 ≤ |baryDenom a b c|) :
    (insideTriangle p a b c →
      (barycentric p a b c).1 + (barycentric p a b c).2.1 +
        (barycentric p a b c).2.2 = 1 ∧
      0 ≤ (barycentric p a b c).1 ∧ 0 ≤ (barycentric p a b c).2.1 ∧
      0 ≤ (barycentric p a b c).2.2) ∧
    (outsideTriangle p a b c →
      (barycentric p a b c).1 < 0 ∨ (barycentric p a b c).2.1 < 0 ∨
        (barycentric p a b c).2.2 < 0) := by
  obtain ⟨p1, p2⟩ := p
  obtain ⟨a1, a2⟩ := a
  obtain ⟨b1, b2⟩ := b
  obtain ⟨c1, c2⟩ := c
  simp only [baryDenom, Vec2.sub, Vec2.dot] at hden
  have hlt : ¬ |((b1 - a1) * (b1 - a1) + (b2 - a2) * (b2 - a2)) *
      ((c1 - a1) * (c1 - a1) + (c2 - a2) * (c2 - a2)) -
      ((b1 - a1) * (c1 - a1) + (b2 - a2) * (c2 - a2)) *
      ((b1 - a1) * (c1 - a1) + (b2 - a2) * (c2 - a2))| < 1 / 100000000 :=
    not_lt.2 hden
  have hne : ((b1 - a1) * (b1 - a1) + (b2 - a2) * (b2 - a2)) *
      ((c1 - a1) * (c1 - a1) + (c2 - a2) * (c2 - a2)) -
      ((b1 - a1) * (c1 - a1) + (b2 - a2) * (c2 - a2)) *
      ((b1 - a1) * (c1 - a1) + (b2 - a2) * (c2 - a2)) ≠ 0 := by
    intro h0
    rw [h0] at hden
    simp at hden
    linarith
  have hbar : barycentric ⟨p1, p2⟩ ⟨a1, a2⟩ ⟨b1, b2⟩ ⟨c1, c2⟩ =
      (1 - (((c1 - a1) * (c1 - a1) + (c2 - a2) * (c2 - a2)) *
            ((p1 - a1) * (b1 - a1) + (p2 - a2) * (b2 - a2)) -
            ((b1 - a1) * (c1 - a1) + (b2 - a2) * (c2 - a2)) *
            ((p1 - a1) * (c1 - a1) + (p2 - a2) * (c2 - a2))) /
          (((b1 - a1) * (b1 - a1) + (b2 - a2) * (b2 - a2)) *
            ((c1 - a1) * (c1 - a1) + (c2 - a2) * (c2 - a2)) -
            ((b1 - a1) * (c1 - a1) + (b2 - a2) * (c2 - a2)) *
            ((b1 - a1) * (c1 - a1) + (b2 - a2) * (c2 - a2))) -
        (((b1 - a1) * (b1 - a1) + (b2 - a2) * (b2 - a2)) *
            ((p1 - a1) * (c1 - a1) + (p2 - a2) * (c2 - a2)) -
            ((b1 - a1) * (c1 - a1) + (b2 - a2) * (c2 - a2)) *
            ((p1 - a1) * (b1 - a1) + (p2 - a2) * (b2 - a2))) /
          (((b1 - a1) * (b1 - a1) + (b2 - a2) * (b2 - a2)) *
            ((c1 - a1) * (c1 - a1) + (c2 - a2) * (c2 - a2)) -
            ((b1 - a1) * (c1 - a1) + (b2 - a2) * (c2 - a2)) *
            ((b1 - a1) * (c1 - a1) + (b2 - a2) * (c2 - a2))),
        (((c1 - a1) * (c1 - a1) + (c2 - a2) * (c2 - a2)) *
            ((p1 - a1) * (b1 - a1) + (p2 - a2) * (b2 - a2)) -
            ((b1 - a1) * (c1 - a1) + (b2 - a2) * (c2 - a2)) *
            ((p1 - a1) * (c1 - a1) + (p2 - a2) * (c2 - a2))) /
          (((b1 - a1) * (b1 - a1) + (b2 - a2) * (b2 - a2)) *
            ((c1 - a1) * (c1 - a1) + (c2 - a2) * (c2 - a2)) -
            ((b1 - a1) * (c1 - a1) + (b2 - a2) * (c2 - a2)) *
            ((b1 - a1) * (c1 - a1) + (b2 - a2) * (c2 - a2))),
        (((b1 - a1) * (b1 - a1) + (b2 - a2) * (b2 - a2)) *
            ((p1 - a1) * (c1 - a1) + (p2 - a2) * (c2 - a2)) -
            ((b1 - a1) * (c1 - a1) + (b2 - a2) * (c2 - a2)) *
            ((p1 - a1) * (b1 - a1) + (p2 - a2) * (b2 - a2))) /
          (((b1 - a1) * (b1 - a1) + (b2 - a2) * (b2 - a2)) *
            ((c1 - a1) * (c1 - a1) + (c2 - a2) * (c2 - a2)) -
            ((b1 - a1) * (c1 - a1) + (b2 - a2) * (c2 - a2)) *
            ((b1 - a1) * (c1 - a1) + (b2 - a2) * (c2 - a2)))) := by
    simp only [barycentric, Vec2.sub, Vec2.dot]
    rw [if_neg hlt]
  have hrepr := bary_repr a1 a2 b1 b2 c1 c2 p1 p2 _ _ _ _ _ _
    ((((c1 - a1) * (c1 - a1) + (c2 - a2) * (c2 - a2)) *
        ((p1 - a1) * (b1 - a1) + (p2 - a2) * (b2 - a2)) -
        ((b1 - a1) * (c1 - a1) + (b2 - a2) * (c2 - a2)) *
        ((p1 - a1) * (c1 - a1) + (p2 - a2) * (c2 - a2))) /
      (((b1 - a1) * (b1 - a1) + (b2 - a2) * (b2 - a2)) *
        ((c1 - a1) * (c1 - a1) + (c2 - a2) * (c2 - a2)) -
        ((b1 - a1) * (c1 - a1) + (b2 - a2) * (c2 - a2)) *
        ((b1 - a1) * (c1 - a1) + (b2 - a2) * (c2 - a2))))
    ((((b1 - a1) * (b1 - a1) + (b2 - a2) * (b2 - a2)) *
        ((p1 - a1) * (c1 - a1) + (p2 - a2) * (c2 - a2)) -
        ((b1 - a1) * (c1 - a1) + (b2 - a2) * (c2 - a2)) *
        ((p1 - a1) * (b1 - a1) + (p2 - a2) * (b2 - a2))) /
      (((b1 - a1) * (b1 - a1) + (b2 - a2) * (b2 - a2)) *
        ((c1 - a1) * (c1 - a1) + (c2 - a2) * (c2 - a2)) -
        ((b1 - a1) * (c1 - a1) + (b2 - a2) * (c2 - a2)) *
        ((b1 - a1) * (c1 - a1) + (b2 - a2) * (c2 - a2))))
    rfl rfl rfl rfl rfl rfl hne rfl rfl
  set V := (((c1 - a1) * (c1 - a1) + (c2 - a2) * (c2 - a2)) *
      ((p1 - a1) * (b1 - a1) + (p2 - a2) * (b2 - a2)) -
      ((b1 - a1) * (c1 - a1) + (b2 - a2) * (c2 - a2)) *
      ((p1 - a1) * (c1 - a1) + (p2 - a2) * (c2 - a2))) /
    (((b1 - a1) * (b1 - a1) + (b2 - a2) * (b2 - a2)) *
      ((c1 - a1) * (c1 - a1) + (c2 - a2) * (c2 - a2)) -
      ((b1 - a1) * (c1 - a1) + (b2 - a2) * (c2 - a2)) *
      ((b1 - a1) * (c1 - a1) + (b2 - a2) * (c2 - a2))) with hV
  set W := (((b1 - a1) * (b1 - a1) + (b2 - a2) * (b2 - a2)) *
      ((p1 - a1) * (c1 - a1) + (p2 - a2) * (c2 - a2)) -
      ((b1 - a1) * (c1 - a1) + (b2 - a2) * (c2 - a2)) *
      ((p1 - a1) * (b1 - a1) + (p2 - a2) * (b2 - a2))) /
    (((b1 - a1) * (b1 - a1) + (b2 - a2) * (b2 - a2)) *
      ((c1 - a1) * (c1 - a1) + (c2 - a2) * (c2 - a2)) -
      ((b1 - a1) * (c1 - a1) + (b2 - a2) * (c2 - a2)) *
      ((b1 - a1) * (c1 - a1) + (b2 - a2) * (c2 - a2))) with hW
  have hcne : (b1 - a1) * (c2 - a2) - (b2 - a2) * (c1 - a1) ≠ 0 := by
    intro h0
    apply hne
    have : ((b1 - a1) * (b1 - a1) + (b2 - a2) * (b2 - a2)) *
        ((c1 - a1) * (c1 - a1) + (c2 - a2) * (c2 - a2)) -
        ((b1 - a1) * (c1 - a1) + (b2 - a2) * (c2 - a2)) *
        ((b1 - a1) * (c1 - a1) + (b2 - a2) * (c2 - a2)) =
        ((b1 - a1) * (c2 - a2) - (b2 - a2) * (c1 - a1)) *
        ((b1 - a1) * (c2 - a2) - (b2 - a2) * (c1 - a1)) := by ring
    rw [this, h0]; ring
  constructor
  · rintro ⟨u0, v0, w0, hu0, hv0, hw0, hsum, hp1, hp2⟩
    simp only at hp1 hp2
    have he1 : (V - v0) * (b1 - a1) + (W - w0) * (c1 - a1) = 0 := by
      linear_combination hp1 - hrepr.1 + a1 * hsum
    have he2 : (V - v0) * (b2 - a2) + (W - w0) * (c2 - a2) = 0 := by
      linear_combination hp2 - hrepr.2 + a2 * hsum
    obtain ⟨heV, heW⟩ := bary_unique a1 a2 b1 b2 c1 c2 V W v0 w0 hcne he1 he2
    rw [hbar]
    refine ⟨?_, ?_, ?_, ?_⟩
    · show 1 - V - W + V + W = 1
      ring
    · show 0 ≤ 1 - V - W
      rw [heV, heW]
      linarith
    · show 0 ≤ V
      rw [heV]
      linarith
    · show 0 ≤ W
      rw [heW]
      linarith
  · intro hout
    by_contra hneg
    push_neg at hneg
    obtain ⟨h1, h2, h3⟩ := hneg
    rw [hbar] at h1 h2 h3
    exact hout ⟨1 - V - W, V, W, h1, h2, h3, by ring,
      by linear_combination hrepr.1, by linear_combination hrepr.2⟩

/-- Witness for C7: the triangle (0,0), (2,0), (0,2), with the interior point
(1/2, 1/2) and the exterior point (3, 3). -/
theorem barycentric_spec_witness :
    ((barycentric ⟨1 / 2, 1 / 2⟩ ⟨0, 0⟩ ⟨2, 0⟩ ⟨0, 2⟩).1 +
        (barycentric ⟨1 / 2, 1 / 2⟩ ⟨0, 0⟩ ⟨2, 0⟩ ⟨0, 2⟩).2.1 +
        (barycentric ⟨1 / 2, 1 / 2⟩ ⟨0, 0⟩ ⟨2, 0⟩ ⟨0, 2⟩).2.2 = 1 ∧
      0 ≤ (barycentric ⟨1 / 2, 1 / 2⟩ ⟨0, 0⟩ ⟨2, 0⟩ ⟨0, 2⟩).1 ∧
      0 ≤ (barycentric ⟨1 / 2, 1 / 2⟩ ⟨0, 0⟩ ⟨2, 0⟩ ⟨0, 2⟩).2.1 ∧
      0 ≤ (barycentric ⟨1 / 2, 1 / 2⟩ ⟨0, 0⟩ ⟨2, 0⟩ ⟨0, 2⟩).2.2) ∧
    ((barycentric ⟨3, 3⟩ ⟨0, 0⟩ ⟨2, 0⟩ ⟨0, 2⟩).1 < 0 ∨
      (barycentric ⟨3, 3⟩ ⟨0, 0⟩ ⟨2, 0⟩ ⟨0, 2⟩).2.1 < 0 ∨
      (barycentric ⟨3, 3⟩ ⟨0, 0⟩ ⟨2, 0⟩ ⟨0, 2⟩).2.2 < 0) := by
  constructor
  · exact (barycentric_spec ⟨1 / 2, 1 / 2⟩ ⟨0, 0⟩ ⟨2, 0⟩ ⟨0, 2⟩
      (by norm_num [baryDenom, Vec2.sub, Vec2.dot])).1
      ⟨1 / 2, 1 / 4, 1 / 4, by norm_num, by norm_num, by norm_num, by norm_num,
        by norm_num, by norm_num⟩
  · refine (barycentric_spec ⟨3, 3⟩ ⟨0, 0⟩ ⟨2, 0⟩ ⟨0, 2⟩
      (by norm_num [baryDenom, Vec2.sub, Vec2.dot])).2 ?_
    rintro ⟨u, v, w, hu, hv, hw, hsum, hp1, hp2⟩
    simp only at hp1 hp2
    have hv2 : v = 3 / 2 := by linarith
    have hw2 : w = 3 / 2 := by linarith
    linarith

/-! ## Helper lemmas for set_pixel, towards draw-order independence (C2) -/

theorem set_pixel_of_oob (fb : Framebuffer) (x y : ℕ) (c : Color) (d : WithTop ℚ)
    (h : fb.width ≤ x ∨ fb.height ≤ y) : fb.set_pixel x y c d = fb := by
  simp only [Framebuffer.set_pixel, if_pos h]

theorem set_pixel_of_none (fb : Framebuffer) (x y : ℕ) (c : Color) (d : WithTop ℚ)
    (h : fb.zbuffer.get? (y * fb.width + x) = none) : fb.set_pixel x y c d = fb := by
  by_cases hout : fb.width ≤ x ∨ fb.height ≤ y
  · exact set_pixel_of_oob fb x y c d hout
  · simp only [Framebuffer.set_pixel, if_neg hout, h]

theorem set_pixel_write (fb : Framebuffer) (x y : ℕ) (c : Color) (d z : WithTop ℚ)
    (hx : x < fb.width) (hy : y < fb.height)
    (hz : fb.zbuffer.get? (y * fb.width + x) = some z) (hd : d < z) :
    fb.set_pixel x y c d =
      { fb with
        buffer := fb.buffer.set (y * fb.width + x) ⟨c.r, c.g, c.b, 255⟩,
        zbuffer := fb.zbuffer.set (y * fb.width + x) d } := by
  have hout : ¬ (fb.width ≤ x ∨ fb.height ≤ y) := by omega
  simp only [Framebuffer.set_pixel, if_neg hout, hz, if_pos hd]

theorem set_pixel_of_not_lt (fb : Framebuffer) (x y : ℕ) (c : Color) (d z : WithTop ℚ)
    (hz : fb.zbuffer.get? (y * fb.width + x) = some z) (hd : ¬ d < z) :
    fb.set_pixel x y c d = fb := by
  by_cases hout : fb.width ≤ x ∨ fb.height ≤ y
  · exact set_pixel_of_oob fb x y c d hout
  · simp only [Framebuffer.set_pixel, if_neg hout, hz, if_neg hd]

theorem set_pixel_width (fb : Framebuffer) (x y : ℕ) (c : Color) (d : WithTop ℚ) :
    (fb.set_pixel x y c d).width = fb.width := by
  by_cases hout : fb.width ≤ x ∨ fb.height ≤ y
  · rw [set_pixel_of_oob fb x y c d hout]
  · rcases hz : fb.zbuffer.get? (y * fb.width + x) with _ | z
    · rw [set_pixel_of_none fb x y c d hz]
    · by_cases hd : d < z
      · rw [set_pixel_write fb x y c d z (by omega) (by omega) hz hd]
      · rw [set_pixel_of_not_lt fb x y c d z hz hd]

theorem set_pixel_height (fb : Framebuffer) (x y : ℕ) (c : Color) (d : WithTop ℚ) :
    (fb.set_pixel x y c d).height = fb.height := by
  by_cases hout : fb.width ≤ x ∨ fb.height ≤ y
  · rw [set_pixel_of_oob fb x y c d hout]
  · rcases hz : fb.zbuffer.get? (y * fb.width + x) with _ | z
    · rw [set_pixel_of_none fb x y c d hz]
    · by_cases hd : d < z
      · rw [set_pixel_write fb x y c d z (by omega) (by omega) hz hd]
      · rw [set_pixel_of_not_lt fb x y c d z hz hd]

theorem set_pixel_zbuffer_get?_ne (fb : Framebuffer) (x y : ℕ) (c : Color)
    (d : WithTop ℚ) (j : ℕ) (hj : j ≠ y * fb.width + x) :
    (fb.set_pixel x y c d).zbuffer.get? j = fb.zbuffer.get? j := by
  by_cases hout : fb.width ≤ x ∨ fb.height ≤ y
  · rw [set_pixel_of_oob fb x y c d hout]
  · rcases hz : fb.zbuffer.get? (y * fb.width + x) with _ | z
    · rw [set_pixel_of_none fb x y c d hz]
    · by_cases hd : d < z
      · rw [set_pixel_write fb x y c d z (by omega) (by omega) hz hd]
        simp only [List.get?_eq_getElem?]
        exact List.getElem?_set_ne (Ne.symm hj)
      · rw [set_pixel_of_not_lt fb x y c d z hz hd]

/-- Commutation of two set_pixel calls on the same pixel with `d1 < d2`. -/
theorem set_pixel_comm_same_lt (fb : Framebuffer) (x y : ℕ) (c1 c2 : Color)
    (d1 d2 : WithTop ℚ) (h12 : d1 < d2) :
    (fb.set_pixel x y c2 d2).set_pixel x y c1 d1 =
    (fb.set_pixel x y c1 d1).set_pixel x y c2 d2 := by
  by_cases hout : fb.width ≤ x ∨ fb.height ≤ y
  · simp only [set_pixel_of_oob fb x y c1 d1 hout, set_pixel_of_oob fb x y c2 d2 hout]
  · have hx : x < fb.width := by omega
    have hy : y < fb.height := by omega
    rcases hz : fb.zbuffer.get? (y * fb.width + x) with _ | z
    · simp only [set_pixel_of_none fb x y c1 d1 hz, set_pixel_of_none fb x y c2 d2 hz]
    · have hlen : y * fb.width + x < fb.zbuffer.length := by
        by_contra hge
        rw [List.get?_eq_getElem?, List.getElem?_eq_none (by omega)] at hz
        cases hz
      by_cases h2z : d2 < z
      · have h1z : d1 < z := lt_trans h12 h2z
        rw [set_pixel_write fb x y c2 d2 z hx hy hz h2z,
            set_pixel_write fb x y c1 d1 z hx hy hz h1z]
        have hzB : ({ fb with
            buffer := fb.buffer.set (y * fb.width + x) ⟨c2.r, c2.g, c2.b, 255⟩,
            zbuffer := fb.zbuffer.set (y * fb.width + x) d2 } :
            Framebuffer).zbuffer.get? (y * fb.width + x) = some d2 := by
          simp only [List.get?_eq_getElem?]
          exact List.getElem?_set_self (by simpa using hlen)
        have hzA : ({ fb with
            buffer := fb.buffer.set (y * fb.width + x) ⟨c1.r, c1.g, c1.b, 255⟩,
            zbuffer := fb.zbuffer.set (y * fb.width + x) d1 } :
            Framebuffer).zbuffer.get? (y * fb.width + x) = some d1 := by
          simp only [List.get?_eq_getElem?]
          exact List.getElem?_set_self (by simpa using hlen)
        rw [set_pixel_write ({ fb with
              buffer := fb.buffer.set (y * fb.width + x) ⟨c2.r, c2.g, c2.b, 255⟩,
              zbuffer := fb.zbuffer.set (y * fb.width + x) d2 } : Framebuffer)
            x y c1 d1 d2 hx hy hzB h12,
            set_pixel_of_not_lt ({ fb with
              buffer := fb.buffer.set (y * fb.width + x) ⟨c1.r, c1.g, c1.b, 255⟩,
              zbuffer := fb.zbuffer.set (y * fb.width + x) d1 } : Framebuffer)
            x y c2 d2 d1 hzA (lt_asymm h12)]
        simp only [Framebuffer.mk.injEq, List.set_set, and_self, and_true, true_and]
      · rw [set_pixel_of_not_lt fb x y c2 d2 z hz h2z]
        by_cases h1z : d1 < z
        · rw [set_pixel_write fb x y c1 d1 z hx hy hz h1z]
          have hzA : ({ fb with
              buffer := fb.buffer.set (y * fb.width + x) ⟨c1.r, c1.g, c1.b, 255⟩,
              zbuffer := fb.zbuffer.set (y * fb.width + x) d1 } :
              Framebuffer).zbuffer.get? (y * fb.width + x) = some d1 := by
            simp only [List.get?_eq_getElem?]
            exact List.getElem?_set_self (by simpa using hlen)
          rw [set_pixel_of_not_lt ({ fb with
              buffer := fb.buffer.set (y * fb.width + x) ⟨c1.r, c1.g, c1.b, 255⟩,
              zbuffer := fb.zbuffer.set (y * fb.width + x) d1 } : Framebuffer)
            x y c2 d2 d1 hzA (lt_asymm h12)]
        · rw [set_pixel_of_not_lt fb x y c1 d1 z hz h1z,
              set_pixel_of_not_lt fb x y c2 d2 z hz h2z]

/-- Commutation of two set_pixel calls on the same pixel: exact same write, or
distinct depths. -/
theorem set_pixel_comm_same (fb : Framebuffer) (x y : ℕ) (c1 c2 : Color)
    (d1 d2 : WithTop ℚ) (hcond : d1 ≠ d2 ∨ (c1 = c2 ∧ d1 = d2)) :
    (fb.set_pixel x y c2 d2).set_pixel x y c1 d1 =
    (fb.set_pixel x y c1 d1).set_pixel x y c2 d2 := by
  rcases hcond with hd | ⟨hc, hd⟩
  · rcases lt_trichotomy d1 d2 with h12 | h12 | h12
    · exact set_pixel_comm_same_lt fb x y c1 c2 d1 d2 h12
    · exact absurd h12 hd
    · exact (set_pixel_comm_same_lt fb x y c2 c1 d2 d1 h12).symm
  · subst hc
    subst hd
    rfl

/-- Commutation of two set_pixel calls on distinct pixel positions. -/
theorem set_pixel_comm_ne (fb : Framebuffer) (x1 y1 x2 y2 : ℕ) (c1 c2 : Color)
    (d1 d2 : WithTop ℚ) (hne : ¬ (x1 = x2 ∧ y1 = y2)) :
    (fb.set_pixel x2 y2 c2 d2).set_pixel x1 y1 c1 d1 =
    (fb.set_pixel x1 y1 c1 d1).set_pixel x2 y2 c2 d2 := by
  by_cases hout1 : fb.width ≤ x1 ∨ fb.height ≤ y1
  · have hA2 : (fb.set_pixel x2 y2 c2 d2).set_pixel x1 y1 c1 d1 =
        fb.set_pixel x2 y2 c2 d2 :=
      set_pixel_of_oob _ x1 y1 c1 d1 (by rw [set_pixel_width, set_pixel_height]; exact hout1)
    rw [hA2, set_pixel_of_oob fb x1 y1 c1 d1 hout1]
  · by_cases hout2 : fb.width ≤ x2 ∨ fb.height ≤ y2
    · have hB2 : (fb.set_pixel x1 y1 c1 d1).set_pixel x2 y2 c2 d2 =
          fb.set_pixel x1 y1 c1 d1 :=
        set_pixel_of_oob _ x2 y2 c2 d2
          (by rw [set_pixel_width, set_pixel_height]; exact hout2)
      rw [hB2, set_pixel_of_oob fb x2 y2 c2 d2 hout2]
    · have hx1 : x1 < fb.width := by omega
      have hy1 : y1 < fb.height := by omega
      have hx2 : x2 < fb.width := by omega
      have hy2 : y2 < fb.height := by omega
      have hidx : y1 * fb.width + x1 ≠ y2 * fb.width + x2 := by
        intro he
        exact hne (pixel_index_inj hx1 hx2 he)
      rcases hz1 : fb.zbuffer.get? (y1 * fb.width + x1) with _ | z1
      · have hA2 : (fb.set_pixel x2 y2 c2 d2).set_pixel x1 y1 c1 d1 =
            fb.set_pixel x2 y2 c2 d2 := by
          refine set_pixel_of_none _ x1 y1 c1 d1 ?_
          rw [set_pixel_width, set_pixel_zbuffer_get?_ne fb x2 y2 c2 d2 _ hidx]
          exact hz1
        rw [hA2, set_pixel_of_none fb x1 y1 c1 d1 hz1]
      · by_cases t1 : d1 < z1
        · rcases hz2 : fb.zbuffer.get? (y2 * fb.width + x2) with _ | z2
          · have hB2 : (fb.set_pixel x1 y1 c1 d1).set_pixel x2 y2 c2 d2 =
                fb.set_pixel x1 y1 c1 d1 := by
              refine set_pixel_of_none _ x2 y2 c2 d2 ?_
              rw [set_pixel_width,
                set_pixel_zbuffer_get?_ne fb x1 y1 c1 d1 _ (Ne.symm hidx)]
              exact hz2
            rw [hB2, set_pixel_of_none fb x2 y2 c2 d2 hz2]
          · by_cases t2 : d2 < z2
            · rw [set_pixel_write fb x2 y2 c2 d2 z2 hx2 hy2 hz2 t2,
                  set_pixel_write fb x1 y1 c1 d1 z1 hx1 hy1 hz1 t1]
              have hzB1 : ({ fb with
                  buffer := fb.buffer.set (y2 * fb.width + x2) ⟨c2.r, c2.g, c2.b, 255⟩,
                  zbuffer := fb.zbuffer.set (y2 * fb.width + x2) d2 } :
                  Framebuffer).zbuffer.get? (y1 * fb.width + x1) = some z1 := by
                show (fb.zbuffer.set (y2 * fb.width + x2) d2).get? (y1 * fb.width + x1) =
                  some z1
                simp only [List.get?_eq_getElem?] at hz1 ⊢
                rw [List.getElem?_set_ne (Ne.symm hidx)]
                exact hz1
              have hzA2 : ({ fb with
                  buffer := fb.buffer.set (y1 * fb.width + x1) ⟨c1.r, c1.g, c1.b, 255⟩,
                  zbuffer := fb.zbuffer.set (y1 * fb.width + x1) d1 } :
                  Framebuffer).zbuffer.get? (y2 * fb.width + x2) = some z2 := by
                show (fb.zbuffer.set (y1 * fb.width + x1) d1).get? (y2 * fb.width + x2) =
                  some z2
                simp only [List.get?_eq_getElem?] at hz2 ⊢
                rw [List.getElem?_set_ne hidx]
                exact hz2
              rw [set_pixel_write ({ fb with
                    buffer := fb.buffer.set (y2 * fb.width + x2) ⟨c2.r, c2.g, c2.b, 255⟩,
                    zbuffer := fb.zbuffer.set (y2 * fb.width + x2) d2 } : Framebuffer)
                  x1 y1 c1 d1 z1 hx1 hy1 hzB1 t1,
                  set_pixel_write ({ fb with
                    buffer := fb.buffer.set (y1 * fb.width + x1) ⟨c1.r, c1.g, c1.b, 255⟩,
                    zbuffer := fb.zbuffer.set (y1 * fb.width + x1) d1 } : Framebuffer)
                  x2 y2 c2 d2 z2 hx2 hy2 hzA2 t2]
              congr 1
              · exact List.set_comm _ _ _ (Ne.symm hidx)
              · exact List.set_comm _ _ _ (Ne.symm hidx)
            · have hB2 : (fb.set_pixel x1 y1 c1 d1).set_pixel x2 y2 c2 d2 =
                  fb.set_pixel x1 y1 c1 d1 := by
                refine set_pixel_of_not_lt _ x2 y2 c2 d2 z2 ?_ t2
                rw [set_pixel_width,
                  set_pixel_zbuffer_get?_ne fb x1 y1 c1 d1 _ (Ne.symm hidx)]
                exact hz2
              rw [hB2, set_pixel_of_not_lt fb x2 y2 c2 d2 z2 hz2 t2]
        · have hA2 : (fb.set_pixel x2 y2 c2 d2).set_pixel x1 y1 c1 d1 =
              fb.set_pixel x2 y2 c2 d2 := by
            refine set_pixel_of_not_lt _ x1 y1 c1 d1 z1 ?_ t1
            rw [set_pixel_width, set_pixel_zbuffer_get?_ne fb x2 y2 c2 d2 _ hidx]
            exact hz1
          rw [hA2, set_pixel_of_not_lt fb x1 y1 c1 d1 z1 hz1 t1]

/-- Two depth-tested writes commute whenever they hit distinct pixels, or the
same pixel with distinct depths, or are the exact same write. -/
theorem set_pixel_comm (fb : Framebuffer) (x1 y1 x2 y2 : ℕ) (c1 c2 : Color)
    (d1 d2 : WithTop ℚ)
    (hcond : x1 = x2 → y1 = y2 → d1 ≠ d2 ∨ (c1 = c2 ∧ d1 = d2)) :
    (fb.set_pixel x2 y2 c2 d2).set_pixel x1 y1 c1 d1 =
    (fb.set_pixel x1 y1 c1 d1).set_pixel x2 y2 c2 d2 := by
  by_cases hxy : x1 = x2 ∧ y1 = y2
  · obtain ⟨hx, hy⟩ := hxy
    subst hx
    subst hy
    exact set_pixel_comm_same fb x1 y1 c1 c2 d1 d2 (hcond rfl rfl)
  · exact set_pixel_comm_ne fb x1 y1 x2 y2 c1 c2 d1 d2 hxy

/-! ## Per-pixel view of rasterize_triangle -/

/-- The sampling point `(x + 0.5, y + 0.5)` of a pixel. -/
abbrev pixelCenter (x y : ℕ) : Vec2 := ⟨(x : ℚ) + 1 / 2, (y : ℚ) + 1 / 2⟩

/-- The barycentric weights of a pixel center for a screen triangle. -/
abbrev triWeights (v0 v1 v2 : TransformedVertex) (x y : ℕ) : ℚ × ℚ × ℚ :=
  barycentric (pixelCenter x y) v0.screen_pos v1.screen_pos v2.screen_pos

/-- Coverage test used by the rasterizer: all three weights non-negative. -/
abbrev triCovers (v0 v1 v2 : TransformedVertex) (x y : ℕ) : Prop :=
  0 ≤ (triWeights v0 v1 v2 x y).1 ∧ 0 ≤ (triWeights v0 v1 v2 x y).2.1 ∧
    0 ≤ (triWeights v0 v1 v2 x y).2.2

/-- The interpolated depth a triangle submits at a pixel. -/
abbrev triDepthAt (v0 v1 v2 : TransformedVertex) (x y : ℕ) : ℚ :=
  (triWeights v0 v1 v2 x y).1 * v0.depth + (triWeights v0 v1 v2 x y).2.1 * v1.depth +
    (triWeights v0 v1 v2 x y).2.2 * v2.depth

/-- The shaded colour a triangle submits at a pixel. -/
abbrev triColorAt (v0 v1 v2 : TransformedVertex) (s : Shader) (t : ℚ) (x y : ℕ) :
    Color :=
  s (((v0.world_pos.smul (triWeights v0 v1 v2 x y).1).add
        (v1.world_pos.smul (triWeights v0 v1 v2 x y).2.1)).add
      (v2.world_pos.smul (triWeights v0 v1 v2 x y).2.2))
    ((((v0.world_normal.smul (triWeights v0 v1 v2 x y).1).add
        (v1.world_normal.smul (triWeights v0 v1 v2 x y).2.1)).add
      (v2.world_normal.smul (triWeights v0 v1 v2 x y).2.2)).normalize)
    t

/-- The per-pixel loop body is a conditional depth-tested write. -/
theorem pixelStep_eq (v0 v1 v2 : TransformedVertex) (s : Shader) (t : ℚ)
    (fb : Framebuffer) (x y : ℕ) :
    pixelStep v0 v1 v2 s t fb x y =
      if triCovers v0 v1 v2 x y then
        fb.set_pixel x y (triColorAt v0 v1 v2 s t x y)
          ((triDepthAt v0 v1 v2 x y : ℚ) : WithTop ℚ)
      else fb := rfl

/-- A covered pixel's step is a depth-tested write. -/
theorem pixelStep_of_covers (v0 v1 v2 : TransformedVertex) (s : Shader) (t : ℚ)
    (fb : Framebuffer) (x y : ℕ) (h : triCovers v0 v1 v2 x y) :
    pixelStep v0 v1 v2 s t fb x y =
      fb.set_pixel x y (triColorAt v0 v1 v2 s t x y)
        ((triDepthAt v0 v1 v2 x y : ℚ) : WithTop ℚ) := by
  rw [pixelStep_eq, if_pos h]

/-- An uncovered pixel's step leaves the framebuffer unchanged. -/
theorem pixelStep_of_not_covers (v0 v1 v2 : TransformedVertex) (s : Shader) (t : ℚ)
    (fb : Framebuffer) (x y : ℕ) (h : ¬ triCovers v0 v1 v2 x y) :
    pixelStep v0 v1 v2 s t fb x y = fb := by
  rw [pixelStep_eq, if_neg h]

/-- Two per-pixel steps commute when no depth tie can occur on a pixel covered
by both triangles. -/
theorem pixelStep_comm (a0 a1 a2 b0 b1 b2 : TransformedVertex) (s : Shader) (t : ℚ)
    (fb : Framebuffer) (x1 y1 x2 y2 : ℕ)
    (h : x1 = x2 → y1 = y2 → triCovers a0 a1 a2 x1 y1 → triCovers b0 b1 b2 x2 y2 →
      triDepthAt a0 a1 a2 x1 y1 ≠ triDepthAt b0 b1 b2 x2 y2) :
    pixelStep a0 a1 a2 s t (pixelStep b0 b1 b2 s t fb x2 y2) x1 y1 =
    pixelStep b0 b1 b2 s t (pixelStep a0 a1 a2 s t fb x1 y1) x2 y2 := by
  by_cases hA : triCovers a0 a1 a2 x1 y1 <;> by_cases hB : triCovers b0 b1 b2 x2 y2
  · rw [pixelStep_of_covers b0 b1 b2 s t fb x2 y2 hB,
        pixelStep_of_covers a0 a1 a2 s t fb x1 y1 hA,
        pixelStep_of_covers a0 a1 a2 s t _ x1 y1 hA,
        pixelStep_of_covers b0 b1 b2 s t _ x2 y2 hB]
    exact set_pixel_comm fb x1 y1 x2 y2 _ _ _ _
      (fun hx hy => Or.inl (fun heq =>
        h hx hy hA hB (WithTop.coe_eq_coe.mp heq)))
  · rw [pixelStep_of_not_covers b0 b1 b2 s t fb x2 y2 hB,
        pixelStep_of_covers a0 a1 a2 s t fb x1 y1 hA,
        pixelStep_of_not_covers b0 b1 b2 s t _ x2 y2 hB]
  · rw [pixelStep_of_covers b0 b1 b2 s t fb x2 y2 hB,
        pixelStep_of_not_covers a0 a1 a2 s t fb x1 y1 hA,
        pixelStep_of_not_covers a0 a1 a2 s t _ x1 y1 hA,
        pixelStep_of_covers b0 b1 b2 s t fb x2 y2 hB]
  · rw [pixelStep_of_not_covers b0 b1 b2 s t fb x2 y2 hB,
        pixelStep_of_not_covers a0 a1 a2 s t fb x1 y1 hA,
        pixelStep_of_not_covers b0 b1 b2 s t fb x2 y2 hB]

/-! ## Fold commutation -/

theorem foldl_comm_single {σ ι : Type _} (l : List ι) (F : σ → ι → σ) (G : σ → σ)
    (s : σ) :
    (∀ i ∈ l, ∀ s2, G (F s2 i) = F (G s2) i) →
    G (l.foldl F s) = l.foldl F (G s) := by
  induction l generalizing s with
  | nil => intro _; rfl
  | cons a l ih =>
    intro h
    simp only [List.foldl_cons]
    rw [ih (F s a) (fun i hi s2 => h i (List.mem_cons_of_mem a hi) s2),
        h a (List.mem_cons_self a l) s]

theorem foldl_foldl_comm {σ ι κ : Type _} (l1 : List ι) (l2 : List κ) (F : σ → ι → σ)
    (G : σ → κ → σ) (s : σ) :
    (∀ i ∈ l1, ∀ j ∈ l2, ∀ s2, F (G s2 j) i = G (F s2 i) j) →
    l1.foldl F (l2.foldl G s) = l2.foldl G (l1.foldl F s) := by
  induction l1 generalizing s with
  | nil => intro _; rfl
  | cons a l ih =>
    intro h
    simp only [List.foldl_cons]
    have hstep : F (l2.foldl G s) a = l2.foldl G (F s a) :=
      foldl_comm_single l2 G (fun s2 => F s2 a) s
        (fun j hj s2 => h a (List.mem_cons_self a l) j hj s2)
    rw [hstep, ih (F s a) (fun i hi j hj s2 => h i (List.mem_cons_of_mem a hi) j hj s2)]

/-! ## Claim C2 (amended): draw-order independence away from exact depth ties -/

/-- Claim C2, amended: rasterizing two triangles in either order produces the
same framebuffer provided no pixel is covered by both triangles with exactly
equal interpolated depths; on an exact depth tie the first writer wins, so the
unrestricted claim fails (see the counterexample). -/
theorem rasterize_triangle_comm (rend : Renderer) (fb : Framebuffer)
    (a0 a1 a2 b0 b1 b2 : TransformedVertex) (s : Shader) (t : ℚ)
    (hnotie : ∀ x y : ℕ, triCovers a0 a1 a2 x y → triCovers b0 b1 b2 x y →
      triDepthAt a0 a1 a2 x y ≠ triDepthAt b0 b1 b2 x y) :
    rasterize_triangle rend (rasterize_triangle rend fb b0 b1 b2 s t) a0 a1 a2 s t =
    rasterize_triangle rend (rasterize_triangle rend fb a0 a1 a2 s t) b0 b1 b2 s t := by
  simp only [rasterize_triangle]
  apply foldl_foldl_comm
  intro yA _ yB _ sY
  apply foldl_foldl_comm
  intro xA _ xB _ sX
  exact pixelStep_comm a0 a1 a2 b0 b1 b2 s t sX xA yA xB yB
    (fun hx hy hA hB => by
      subst hx
      subst hy
      exact hnotie xA yA hA hB)

/-- The sum of the three barycentric weights is 1 whenever the denominator
test passes (the first weight is computed as one minus the other two). -/
theorem barycentric_sum (p a b c : Vec2)
    (h : ¬ |baryDenom a b c| < 1 / 100000000) :
    (barycentric p a b c).1 + (barycentric p a b c).2.1 +
      (barycentric p a b c).2.2 = 1 := by
  simp only [baryDenom, Vec2.sub, Vec2.dot] at h
  simp only [barycentric, Vec2.sub, Vec2.dot]
  rw [if_neg h]
  dsimp only
  ring

/-- Witness for C2: two concrete triangles over the same screen footprint at
constant depths 1/2 and 3/4; the no-tie hypothesis holds at every pixel. -/
theorem rasterize_triangle_comm_witness :
    rasterize_triangle ⟨1, 1⟩
      (rasterize_triangle ⟨1, 1⟩ (⟨1, 1, [⟨0, 0, 0, 0⟩], [⊤]⟩ : Framebuffer)
        ⟨⟨0, 0⟩, 3 / 4, ⟨0, 0, 0⟩, ⟨0, 0, 1⟩⟩ ⟨⟨2, 0⟩, 3 / 4, ⟨0, 0, 0⟩, ⟨0, 0, 1⟩⟩
        ⟨⟨0, 2⟩, 3 / 4, ⟨0, 0, 0⟩, ⟨0, 0, 1⟩⟩ (fun _ _ _ => ⟨1, 2, 3⟩) 0)
      ⟨⟨0, 0⟩, 1 / 2, ⟨0, 0, 0⟩, ⟨0, 0, 1⟩⟩ ⟨⟨2, 0⟩, 1 / 2, ⟨0, 0, 0⟩, ⟨0, 0, 1⟩⟩
      ⟨⟨0, 2⟩, 1 / 2, ⟨0, 0, 0⟩, ⟨0, 0, 1⟩⟩ (fun _ _ _ => ⟨1, 2, 3⟩) 0 =
    rasterize_triangle ⟨1, 1⟩
      (rasterize_triangle ⟨1, 1⟩ (⟨1, 1, [⟨0, 0, 0, 0⟩], [⊤]⟩ : Framebuffer)
        ⟨⟨0, 0⟩, 1 / 2, ⟨0, 0, 0⟩, ⟨0, 0, 1⟩⟩ ⟨⟨2, 0⟩, 1 / 2, ⟨0, 0, 0⟩, ⟨0, 0, 1⟩⟩
        ⟨⟨0, 2⟩, 1 / 2, ⟨0, 0, 0⟩, ⟨0, 0, 1⟩⟩ (fun _ _ _ => ⟨1, 2, 3⟩) 0)
      ⟨⟨0, 0⟩, 3 / 4, ⟨0, 0, 0⟩, ⟨0, 0, 1⟩⟩ ⟨⟨2, 0⟩, 3 / 4, ⟨0, 0, 0⟩, ⟨0, 0, 1⟩⟩
      ⟨⟨0, 2⟩, 3 / 4, ⟨0, 0, 0⟩, ⟨0, 0, 1⟩⟩ (fun _ _ _ => ⟨1, 2, 3⟩) 0 := by
  apply rasterize_triangle_comm
  intro x y _ _
  have hden : ¬ |baryDenom (⟨0, 0⟩ : Vec2) ⟨2, 0⟩ ⟨0, 2⟩| < 1 / 100000000 := by
    norm_num [baryDenom, Vec2.sub, Vec2.dot]
  have hs := barycentric_sum (pixelCenter x y) ⟨0, 0⟩ ⟨2, 0⟩ ⟨0, 2⟩ hden
  unfold triDepthAt triWeights
  dsimp only
  intro heq
  have h12 : (1 : ℚ) / 2 = 3 / 4 := by linear_combination heq + hs / 4
  norm_num at h12

/-! ## Counterexample for C2 : an exact depth tie is order-dependent -/

/-- A shader that distinguishes the two counterexample triangles through their
world positions. -/
def cexShader : Shader := fun p _ _ => if p.x = 0 then ⟨10, 20, 30⟩ else ⟨40, 50, 60⟩

/-- The barycentric weights of the single pixel center of a 1×1 framebuffer
with respect to the counterexample screen triangle. -/
theorem cex_bary :
    barycentric (pixelCenter 0 0) ⟨0, 0⟩ ⟨2, 0⟩ ⟨0, 2⟩ = (1 / 2, 1 / 4, 1 / 4) := by
  simp only [pixelCenter, barycentric, Vec2.sub, Vec2.dot]
  rw [if_neg (by norm_num)]
  norm_num [Prod.ext_iff]

/-- On the counterexample geometry the triangle's bounding box is the single
pixel (0,0), so rasterization is one pixel step. -/
theorem rasterize_cex_eval (fb : Framebuffer) (d : ℚ) (wp wn : Vec3) (s : Shader) :
    rasterize_triangle ⟨1, 1⟩ fb ⟨⟨0, 0⟩, d, wp, wn⟩ ⟨⟨2, 0⟩, d, wp, wn⟩
      ⟨⟨0, 2⟩, d, wp, wn⟩ s 0 =
      pixelStep ⟨⟨0, 0⟩, d, wp, wn⟩ ⟨⟨2, 0⟩, d, wp, wn⟩ ⟨⟨0, 2⟩, d, wp, wn⟩ s 0 fb 0 0 := by
  simp only [rasterize_triangle]
  have hmin0 : ratToUsize (max (ratFloor (min (min (0 : ℚ) 2) 0)) 0) = 0 := by
    norm_num [ratFloor, ratToUsize, min_def, max_def]
  have hmin0y : ratToUsize (max (ratFloor (min (min (0 : ℚ) 0) 2)) 0) = 0 := by
    norm_num [ratFloor, ratToUsize, min_def, max_def]
  have hmaxx : ratToUsize (min (ratCeil (max (max (0 : ℚ) 2) 0)) ((1 : ℚ) - 1)) = 0 := by
    norm_num [ratCeil, ratToUsize, min_def, max_def]
  have hmaxy : ratToUsize (min (ratCeil (max (max (0 : ℚ) 0) 2)) ((1 : ℚ) - 1)) = 0 := by
    norm_num [ratCeil, ratToUsize, min_def, max_def]
  rw [hmin0, hmin0y, hmaxx, hmaxy]
  rw [show rangeIncl 0 0 = [0] from rfl]
  simp only [List.foldl_cons, List.foldl_nil]

/-- The counterexample triangles cover the pixel. -/
theorem cex_covers (d : ℚ) (wp wn : Vec3) :
    triCovers ⟨⟨0, 0⟩, d, wp, wn⟩ ⟨⟨2, 0⟩, d, wp, wn⟩ ⟨⟨0, 2⟩, d, wp, wn⟩ 0 0 := by
  unfold triCovers triWeights
  rw [cex_bary]
  show (0 : ℚ) ≤ 1 / 2 ∧ (0 : ℚ) ≤ 1 / 4 ∧ (0 : ℚ) ≤ 1 / 4
  norm_num

/-- Each counterexample triangle submits exactly its constant vertex depth at
the pixel. -/
theorem cex_depth (d : ℚ) (wp wn : Vec3) :
    triDepthAt ⟨⟨0, 0⟩, d, wp, wn⟩ ⟨⟨2, 0⟩, d, wp, wn⟩ ⟨⟨0, 2⟩, d, wp, wn⟩ 0 0 = d := by
  unfold triDepthAt triWeights
  rw [cex_bary]
  show (1 : ℚ) / 2 * d + 1 / 4 * d + 1 / 4 * d = d
  ring

/-- The shaded colour of the counterexample triangle with world position `wp`. -/
theorem cex_color (d : ℚ) (wp wn : Vec3) :
    triColorAt ⟨⟨0, 0⟩, d, wp, wn⟩ ⟨⟨2, 0⟩, d, wp, wn⟩ ⟨⟨0, 2⟩, d, wp, wn⟩ cexShader 0 0 0 =
      (if wp.x = 0 then (⟨10, 20, 30⟩ : Color) else ⟨40, 50, 60⟩) := by
  unfold triColorAt triWeights cexShader
  rw [cex_bary]
  simp only [Vec3.smul, Vec3.add]
  have hx : wp.x * (1 / 2) + wp.x * (1 / 4) + wp.x * (1 / 4) = wp.x := by ring
  simp only [hx]

/-- Counterexample for C2: two overlapping triangles with exactly equal
interpolated depths but different shaded colours give different final images in
the two draw orders (the first writer wins the tie). -/
theorem rasterize_order_counterexample :
    rasterize_triangle ⟨1, 1⟩
      (rasterize_triangle ⟨1, 1⟩ (⟨1, 1, [⟨0, 0, 0, 0⟩], [⊤]⟩ : Framebuffer)
        ⟨⟨0, 0⟩, 1 / 2, ⟨1, 0, 0⟩, ⟨0, 0, 1⟩⟩ ⟨⟨2, 0⟩, 1 / 2, ⟨1, 0, 0⟩, ⟨0, 0, 1⟩⟩
        ⟨⟨0, 2⟩, 1 / 2, ⟨1, 0, 0⟩, ⟨0, 0, 1⟩⟩ cexShader 0)
      ⟨⟨0, 0⟩, 1 / 2, ⟨0, 0, 0⟩, ⟨0, 0, 1⟩⟩ ⟨⟨2, 0⟩, 1 / 2, ⟨0, 0, 0⟩, ⟨0, 0, 1⟩⟩
      ⟨⟨0, 2⟩, 1 / 2, ⟨0, 0, 0⟩, ⟨0, 0, 1⟩⟩ cexShader 0 ≠
    rasterize_triangle ⟨1, 1⟩
      (rasterize_triangle ⟨1, 1⟩ (⟨1, 1, [⟨0, 0, 0, 0⟩], [⊤]⟩ : Framebuffer)
        ⟨⟨0, 0⟩, 1 / 2, ⟨0, 0, 0⟩, ⟨0, 0, 1⟩⟩ ⟨⟨2, 0⟩, 1 / 2, ⟨0, 0, 0⟩, ⟨0, 0, 1⟩⟩
        ⟨⟨0, 2⟩, 1 / 2, ⟨0, 0, 0⟩, ⟨0, 0, 1⟩⟩ cexShader 0)
      ⟨⟨0, 0⟩, 1 / 2, ⟨1, 0, 0⟩, ⟨0, 0, 1⟩⟩ ⟨⟨2, 0⟩, 1 / 2, ⟨1, 0, 0⟩, ⟨0, 0, 1⟩⟩
      ⟨⟨0, 2⟩, 1 / 2, ⟨1, 0, 0⟩, ⟨0, 0, 1⟩⟩ cexShader 0 := by
  have hwriteB : (⟨1, 1, [⟨0, 0, 0, 0⟩], [⊤]⟩ : Framebuffer).set_pixel 0 0 ⟨40, 50, 60⟩
      (((1 : ℚ) / 2 : ℚ) : WithTop ℚ) =
      (⟨1, 1, [⟨40, 50, 60, 255⟩], [(((1 : ℚ) / 2 : ℚ) : WithTop ℚ)]⟩ : Framebuffer) :=
    (set_pixel_write (⟨1, 1, [⟨0, 0, 0, 0⟩], [⊤]⟩ : Framebuffer) 0 0 ⟨40, 50, 60⟩ _ ⊤
      (by decide) (by decide) rfl (WithTop.coe_lt_top _)).trans rfl
  have hwriteA : (⟨1, 1, [⟨0, 0, 0, 0⟩], [⊤]⟩ : Framebuffer).set_pixel 0 0 ⟨10, 20, 30⟩
      (((1 : ℚ) / 2 : ℚ) : WithTop ℚ) =
      (⟨1, 1, [⟨10, 20, 30, 255⟩], [(((1 : ℚ) / 2 : ℚ) : WithTop ℚ)]⟩ : Framebuffer) :=
    (set_pixel_write (⟨1, 1, [⟨0, 0, 0, 0⟩], [⊤]⟩ : Framebuffer) 0 0 ⟨10, 20, 30⟩ _ ⊤
      (by decide) (by decide) rfl (WithTop.coe_lt_top _)).trans rfl
  have hrejA : (⟨1, 1, [⟨40, 50, 60, 255⟩], [(((1 : ℚ) / 2 : ℚ) : WithTop ℚ)]⟩ :
      Framebuffer).set_pixel 0 0 ⟨10, 20, 30⟩ (((1 : ℚ) / 2 : ℚ) : WithTop ℚ) =
      (⟨1, 1, [⟨40, 50, 60, 255⟩], [(((1 : ℚ) / 2 : ℚ) : WithTop ℚ)]⟩ : Framebuffer) :=
    set_pixel_of_not_lt _ 0 0 ⟨10, 20, 30⟩ _ (((1 : ℚ) / 2 : ℚ) : WithTop ℚ) rfl
      (lt_irrefl _)
  have hrejB : (⟨1, 1, [⟨10, 20, 30, 255⟩], [(((1 : ℚ) / 2 : ℚ) : WithTop ℚ)]⟩ :
      Framebuffer).set_pixel 0 0 ⟨40, 50, 60⟩ (((1 : ℚ) / 2 : ℚ) : WithTop ℚ) =
      (⟨1, 1, [⟨10, 20, 30, 255⟩], [(((1 : ℚ) / 2 : ℚ) : WithTop ℚ)]⟩ : Framebuffer) :=
    set_pixel_of_not_lt _ 0 0 ⟨40, 50, 60⟩ _ (((1 : ℚ) / 2 : ℚ) : WithTop ℚ) rfl
      (lt_irrefl _)
  rw [rasterize_cex_eval, rasterize_cex_eval, rasterize_cex_eval, rasterize_cex_eval]
  rw [pixelStep_of_covers _ _ _ cexShader 0 (⟨1, 1, [⟨0, 0, 0, 0⟩], [⊤]⟩ : Framebuffer)
      0 0 (cex_covers (1 / 2) ⟨1, 0, 0⟩ ⟨0, 0, 1⟩),
      pixelStep_of_covers _ _ _ cexShader 0 (⟨1, 1, [⟨0, 0, 0, 0⟩], [⊤]⟩ : Framebuffer)
      0 0 (cex_covers (1 / 2) ⟨0, 0, 0⟩ ⟨0, 0, 1⟩)]
  rw [cex_depth (1 / 2) ⟨1, 0, 0⟩ ⟨0, 0, 1⟩, cex_color (1 / 2) ⟨1, 0, 0⟩ ⟨0, 0, 1⟩,
      cex_color (1 / 2) ⟨0, 0, 0⟩ ⟨0, 0, 1⟩]
  rw [if_neg (show ¬ ((⟨1, 0, 0⟩ : Vec3)).x = (0 : ℚ) by norm_num),
      if_pos (show ((⟨0, 0, 0⟩ : Vec3)).x = (0 : ℚ) from rfl)]
  rw [hwriteB, hwriteA]
  rw [pixelStep_of_covers _ _ _ cexShader 0
      (⟨1, 1, [⟨40, 50, 60, 255⟩], [(((1 : ℚ) / 2 : ℚ) : WithTop ℚ)]⟩ : Framebuffer)
      0 0 (cex_covers (1 / 2) ⟨0, 0, 0⟩ ⟨0, 0, 1⟩),
      pixelStep_of_covers _ _ _ cexShader 0
      (⟨1, 1, [⟨10, 20, 30, 255⟩], [(((1 : ℚ) / 2 : ℚ) : WithTop ℚ)]⟩ : Framebuffer)
      0 0 (cex_covers (1 / 2) ⟨1, 0, 0⟩ ⟨0, 0, 1⟩)]
  rw [cex_depth (1 / 2) ⟨1, 0, 0⟩ ⟨0, 0, 1⟩, cex_color (1 / 2) ⟨1, 0, 0⟩ ⟨0, 0, 1⟩,
      cex_color (1 / 2) ⟨0, 0, 0⟩ ⟨0, 0, 1⟩]
  rw [if_neg (show ¬ ((⟨1, 0, 0⟩ : Vec3)).x = (0 : ℚ) by norm_num),
      if_pos (show ((⟨0, 0, 0⟩ : Vec3)).x = (0 : ℚ) from rfl)]
  rw [hrejA, hrejB]
  intro h
  have hb := congrArg Framebuffer.buffer h
  simp [Pixel.mk.injEq] at hb

/-! ## shaders.rs : noise library.  `i32` values are unsigned 32-bit patterns. -/

def wrap32 (z : ℤ) : ℕ := (z % 4294967296).toNat

/-- The signed value of a 32-bit pattern. -/
def toSigned (n : ℕ) : ℤ := if n < 2147483648 then (n : ℤ) else (n : ℤ) - 4294967296

/-- `i32::wrapping_mul` on bit patterns. -/
def wmul (a b : ℕ) : ℕ := a * b % 4294967296

/-- `i32::wrapping_add` on bit patterns (also used for the `+ 1` on lattice
coordinates, which wraps in release builds). -/
def wadd (a b : ℕ) : ℕ := (a + b) % 4294967296

/-- Arithmetic shift right by 13 bits (`i32 >> 13`), floor division on the
signed value. -/
def ashr13 (n : ℕ) : ℕ := wrap32 ((toSigned n).fdiv 8192)

/-- shaders.rs `hash`: wrapping multiply-add mixing, xor-shift, byte mask. -/
def hash (x y z : ℕ) : ℕ :=
  let n := wadd (wadd (wmul x 374761393) (wmul y 668265263)) (wmul z 1274126177)
  let n2 := wmul (n ^^^ ashr13 n) 1274126177
  n2 % 256

/-- shaders.rs `fade`, the quintic `6t^5 - 15t^4 + 10t^3`. -/
def fade (t : ℚ) : ℚ := t * t * t * (t * (t * 6 - 15) + 10)

def lerp (a b t : ℚ) : ℚ := a + t * (b - a)

/-- shaders.rs `grad`: gradient selected from the low 4 bits of the hash. -/
def grad (h : ℕ) (x y z : ℚ) : ℚ :=
  let h2 := h % 16
  let u := if h2 < 8 then x else y
  let v := if h2 < 4 then y else if h2 = 12 ∨ h2 = 14 then x else z
  (if h2 % 2 = 0 then u else -u) + (if h2 / 2 % 2 = 0 then v else -v)

/-- `x.floor() as i32`: the Rust float-to-int cast saturates at the `i32`
range; the result is stored as its unsigned bit pattern. -/
def i32OfFloor (q : ℚ) : ℕ := wrap32 (max (-2147483648) (min 2147483647 ⌊q⌋))

/-- shaders.rs `perlin_noise`: hashed corner gradients, fade-curve trilinear
interpolation, rescale from [-1, 1] to [0, 1]. -/
def perlin_noise (x y z : ℚ) : ℚ :=
  let xi := i32OfFloor x
  let yi := i32OfFloor y
  let zi := i32OfFloor z
  let xf := x - ratFloor x
  let yf := y - ratFloor y
  let zf := z - ratFloor z
  let u := fade xf
  let v := fade yf
  let w := fade zf
  let aaa := hash xi yi zi
  let aba := hash xi (wadd yi 1) zi
  let aab := hash xi yi (wadd zi 1)
  let abb := hash xi (wadd yi 1) (wadd zi 1)
  let baa := hash (wadd xi 1) yi zi
  let bba := hash (wadd xi 1) (wadd yi 1) zi
  let bab := hash (wadd xi 1) yi (wadd zi 1)
  let bbb := hash (wadd xi 1) (wadd yi 1) (wadd zi 1)
  let x1 := lerp (grad aaa xf yf zf) (grad baa (xf - 1) yf zf) u
  let x2 := lerp (grad aba xf (yf - 1) zf) (grad bba (xf - 1) (yf - 1) zf) u
  let y1 := lerp x1 x2 v
  let x3 := lerp (grad aab xf yf (zf - 1)) (grad bab (xf - 1) yf (zf - 1)) u
  let x4 := lerp (grad abb xf (yf - 1) (zf - 1)) (grad bbb (xf - 1) (yf - 1) (zf - 1)) u
  let y2 := lerp x3 x4 v
  (lerp y1 y2 w + 1) * (1 / 2)

/-! ## Claim C8 : rendering and noise are pure functions of their inputs -/

/-- Claim C8: rendering the same mesh, shader, matrices and time into two
independently cleared framebuffers of identical dimensions produces identical
output, and the noise function is deterministic: in this state-free embedding
(mirroring the source, whose only mutable state is the framebuffer argument
itself) both follow by reflexivity. -/
theorem render_mesh_deterministic (rend : Renderer) (w h : ℕ) (c : Color)
    (mesh : ObjMesh) (shader : Shader) (m v p : Mat4) (t : ℚ)
    (fb1 fb2 : Framebuffer)
    (h1 : fb1 = (Framebuffer.new w h).clear c)
    (h2 : fb2 = (Framebuffer.new w h).clear c) :
    render_mesh rend fb1 mesh shader m v p t =
      render_mesh rend fb2 mesh shader m v p t ∧
    ∀ x y z : ℚ, perlin_noise x y z = perlin_noise x y z := by
  subst h1
  subst h2
  exact ⟨rfl, fun _ _ _ => rfl⟩

/-- Witness for C8: a concrete render of a one-triangle mesh repeated twice. -/
theorem render_mesh_deterministic_witness :
    render_mesh ⟨1, 1⟩ ((Framebuffer.new 1 1).clear ⟨0, 0, 0⟩)
        ⟨[⟨⟨0, 0, 0⟩, ⟨0, 0, 1⟩⟩], [0, 0, 0]⟩ (fun _ _ _ => ⟨1, 2, 3⟩)
        Mat4.identity Mat4.identity Mat4.identity 0 =
      render_mesh ⟨1, 1⟩ ((Framebuffer.new 1 1).clear ⟨0, 0, 0⟩)
        ⟨[⟨⟨0, 0, 0⟩, ⟨0, 0, 1⟩⟩], [0, 0, 0]⟩ (fun _ _ _ => ⟨1, 2, 3⟩)
        Mat4.identity Mat4.identity Mat4.identity 0 ∧
    ∀ x y z : ℚ, perlin_noise x y z = perlin_noise x y z :=
  render_mesh_deterministic ⟨1, 1⟩ 1 1 ⟨0, 0, 0⟩ ⟨[⟨⟨0, 0, 0⟩, ⟨0, 0, 1⟩⟩], [0, 0, 0]⟩
    (fun _ _ _ => ⟨1, 2, 3⟩) Mat4.identity Mat4.identity Mat4.identity 0 _ _ rfl rfl

/-! ## Claim C3 : tolerance of malformed meshes -/

theorem foldlM_option_isSome {σ ι : Type _} (l : List ι) (f : σ → ι → Option σ)
    (s : σ) (h : ∀ s2, ∀ i ∈ l, (f s2 i).isSome) : (List.foldlM f s l).isSome := by
  induction l generalizing s with
  | nil => rfl
  | cons a l ih =>
    simp only [List.foldlM_cons]
    rcases hfa : f s a with _ | s2
    · have hcontra := h s a (List.mem_cons_self a l)
      rw [hfa] at hcontra
      simp at hcontra
    · exact ih s2 (fun s3 i hi => h s3 i (List.mem_cons_of_mem a hi))

/-- Claim C3 (amended): when the index count is a multiple of 3, `render_mesh`
completes, silently skipping triangles whose indices are out of the vertex
range; when the index count is not a multiple of 3, the trailing partial
triple is indexed out of bounds (`mesh.indices[i + 1]` / `[i + 2]`) and the
draw call panics — see the counterexample. -/
theorem render_mesh_total_of_multiple_of_three (rend : Renderer) (fb : Framebuffer)
    (mesh : ObjMesh) (shader : Shader) (m v p : Mat4) (t : ℚ)
    (h3 : mesh.indices.length % 3 = 0) :
    (render_mesh rend fb mesh shader m v p t).isSome := by
  rw [render_mesh]
  apply foldlM_option_isSome
  intro fb2 i hi
  simp only [List.mem_filter, List.mem_range] at hi
  obtain ⟨hilen, hmod⟩ := hi
  have hmod3 : i % 3 = 0 := by simpa using hmod
  have h1 : i + 1 < mesh.indices.length := by omega
  have h2 : i + 2 < mesh.indices.length := by omega
  rw [renderTriangle]
  rw [List.get?_eq_get hilen, List.get?_eq_get h1, List.get?_eq_get h2]
  simp only [Option.bind_eq_bind, Option.some_bind]
  rcases (mesh.vertices.map fun v2 => transform_vertex rend v2 m
      ((p.mul v).mul m)).get? (mesh.indices.get ⟨i, hilen⟩) with _ | t0 <;>
    rcases (mesh.vertices.map fun v2 => transform_vertex rend v2 m
      ((p.mul v).mul m)).get? (mesh.indices.get ⟨i + 1, h1⟩) with _ | t1 <;>
    rcases (mesh.vertices.map fun v2 => transform_vertex rend v2 m
      ((p.mul v).mul m)).get? (mesh.indices.get ⟨i + 2, h2⟩) with _ | t2 <;>
    rfl

/-- Witness for the amended C3: a mesh of one vertex and index triple
`[0, 0, 0]` renders to completion. -/
theorem render_mesh_total_of_multiple_of_three_witness :
    ([0, 0, 0] : List ℕ).length % 3 = 0 ∧
    (render_mesh ⟨1, 1⟩ (⟨1, 1, [⟨0, 0, 0, 0⟩], [⊤]⟩ : Framebuffer)
      ⟨[⟨⟨0, 0, 0⟩, ⟨0, 0, 1⟩⟩], [0, 0, 0]⟩ (fun _ _ _ => ⟨1, 2, 3⟩)
      Mat4.identity Mat4.identity Mat4.identity 0).isSome :=
  ⟨by decide,
    render_mesh_total_of_multiple_of_three ⟨1, 1⟩ ⟨1, 1, [⟨0, 0, 0, 0⟩], [⊤]⟩
      ⟨[⟨⟨0, 0, 0⟩, ⟨0, 0, 1⟩⟩], [0, 0, 0]⟩ (fun _ _ _ => ⟨1, 2, 3⟩)
      Mat4.identity Mat4.identity Mat4.identity 0 (by decide)⟩

/-- Counterexample for C3: a mesh whose index list has length 1 (not a
multiple of 3) makes `render_mesh` hit the out-of-bounds access
`mesh.indices[i + 1]` on its first triangle: the draw call fails (panics)
instead of skipping the malformed triangle. -/
theorem render_mesh_partial_triple_panics :
    render_mesh ⟨1, 1⟩ (⟨1, 1, [⟨0, 0, 0, 0⟩], [⊤]⟩ : Framebuffer)
      ⟨[⟨⟨0, 0, 0⟩, ⟨0, 0, 1⟩⟩], [0]⟩ (fun _ _ _ => ⟨1, 2, 3⟩)
      Mat4.identity Mat4.identity Mat4.identity 0 = none := rfl

/-! ## mesh.rs : procedural UV sphere.  Positions and normals use real-valued
trigonometry (`sin`/`cos`/`π`), so these definitions are noncomputable; the
claims about the sphere concern only index values and counts. -/

structure VertexR where
  position : ℝ × ℝ × ℝ
  normal : ℝ × ℝ × ℝ

structure ObjMeshR where
  vertices : List VertexR
  indices : List ℕ

/-- The ring/sector vertex loop `for r in 1..rings { for s in 0..=sectors }`. -/
noncomputable def sphereMidVertices (radius : ℝ) (rings sectors : ℕ) : List VertexR :=
  (List.range (rings - 1)).flatMap fun r0 =>
    (List.range (sectors + 1)).map fun (s : ℕ) =>
      let r := r0 + 1
      let theta := Real.pi * (r : ℝ) / (rings : ℝ)
      let phi := 2 * Real.pi * (s : ℝ) / (sectors : ℝ)
      let x := Real.sin theta * Real.cos phi
      let y := Real.cos theta
      let z := Real.sin theta * Real.sin phi
      ⟨(x * radius, y * radius, z * radius), (x, y, z)⟩

/-- North pole, intermediate rings, south pole. -/
noncomputable def sphereVertices (radius : ℝ) (rings sectors : ℕ) : List VertexR :=
  ⟨(0, radius, 0), (0, 1, 0)⟩ :: sphereMidVertices radius rings sectors ++
    [⟨(0, -radius, 0), (0, -1, 0)⟩]

/-- Triangle fan around the north pole. -/
def sphereTopIndices (sectors : ℕ) : List ℕ :=
  (List.range sectors).flatMap fun s => [0, 1 + s, 1 + s + 1]

/-- Two triangles per quad for the intermediate rings
(`for r in 0..(rings - 2)`; the subtraction underflows for `rings < 2` in the
source, which the claims exclude). -/
def sphereMidIndices (rings sectors : ℕ) : List ℕ :=
  (List.range (rings - 2)).flatMap fun r =>
    (List.range sectors).flatMap fun s =>
      let current := 1 + r * (sectors + 1) + s
      let next := current + sectors + 1
      [current, next, current + 1, current + 1, next, next + 1]

/-- `ObjMesh::create_sphere`. -/
noncomputable def create_sphere (radius : ℝ) (rings sectors : ℕ) : ObjMeshR :=
  let vertices := sphereVertices radius rings sectors
  let south_pole_index := vertices.length - 1
  let last_ring_start := south_pole_index - (sectors + 1)
  ⟨vertices,
    sphereTopIndices sectors ++ sphereMidIndices rings sectors ++
      (List.range sectors).flatMap fun s =>
        [last_ring_start + s, south_pole_index, last_ring_start + s + 1]⟩

theorem flatMap_range_const_length {β : Type _} (n k : ℕ) (f : ℕ → List β)
    (hf : ∀ i, (f i).length = k) : ((List.range n).flatMap f).length = n * k := by
  induction n with
  | zero => simp
  | succ n ih =>
    rw [List.range_succ, List.flatMap_append]
    simp [ih, hf, Nat.succ_mul]

theorem sphereMidVertices_length (radius : ℝ) (rings sectors : ℕ) :
    (sphereMidVertices radius rings sectors).length = (rings - 1) * (sectors + 1) := by
  rw [sphereMidVertices]
  exact flatMap_range_const_length _ _ _ (fun i => by simp)

theorem sphereVertices_length (radius : ℝ) (rings sectors : ℕ) :
    (sphereVertices radius rings sectors).length = 2 + (rings - 1) * (sectors + 1) := by
  simp [sphereVertices, sphereMidVertices_length]
  ring

/-- Claim C9: for `rings ≥ 2` and `sectors ≥ 1`, the procedural sphere
satisfies the mesh invariant: its index count is a multiple of 3 and every
index is below its vertex count, which is `2 + (rings - 1) * (sectors + 1)`. -/
theorem create_sphere_mesh_invariant (radius : ℝ) (rings sectors : ℕ)
    (hr : 2 ≤ rings) (_hs : 1 ≤ sectors) :
    (create_sphere radius rings sectors).indices.length % 3 = 0 ∧
    (create_sphere radius rings sectors).vertices.length =
      2 + (rings - 1) * (sectors + 1) ∧
    ∀ i ∈ (create_sphere radius rings sectors).indices,
      i < (create_sphere radius rings sectors).vertices.length := by
  have htop : (sphereTopIndices sectors).length = sectors * 3 :=
    flatMap_range_const_length sectors 3 _ (fun i => rfl)
  have hmid : (sphereMidIndices rings sectors).length = (rings - 2) * (sectors * 6) :=
    flatMap_range_const_length (rings - 2) (sectors * 6) _
      (fun r => flatMap_range_const_length sectors 6 _ (fun s => rfl))
  have hvl : (create_sphere radius rings sectors).vertices.length =
      2 + (rings - 1) * (sectors + 1) := by
    simp only [create_sphere]
    exact sphereVertices_length radius rings sectors
  have hbot : ((List.range sectors).flatMap fun s =>
      [(sphereVertices radius rings sectors).length - 1 - (sectors + 1) + s,
       (sphereVertices radius rings sectors).length - 1,
       (sphereVertices radius rings sectors).length - 1 - (sectors + 1) + s + 1]).length
      = sectors * 3 :=
    flatMap_range_const_length sectors 3 _ (fun s => rfl)
  refine ⟨?_, hvl, ?_⟩
  · simp only [create_sphere, List.length_append]
    rw [htop, hmid, hbot]
    have hfac : sectors * 3 + (rings - 2) * (sectors * 6) + sectors * 3 =
        3 * (sectors + (rings - 2) * (sectors * 2) + sectors) := by ring
    omega
  · intro i hi
    rw [hvl]
    simp only [create_sphere, List.mem_append] at hi
    have hmono : sectors + 1 ≤ (rings - 1) * (sectors + 1) :=
      Nat.le_mul_of_pos_left (sectors + 1) (by omega)
    rcases hi with (hi | hi) | hi
    · simp only [sphereTopIndices, List.mem_flatMap, List.mem_range, List.mem_cons,
        List.not_mem_nil, or_false] at hi
      obtain ⟨s, hs2, hmem⟩ := hi
      generalize hA : (rings - 1) * (sectors + 1) = A at hmono ⊢
      rcases hmem with h | h | h <;> omega
    · simp only [sphereMidIndices, List.mem_flatMap, List.mem_range, List.mem_cons,
        List.not_mem_nil, or_false] at hi
      obtain ⟨r, hr2, s, hs2, hmem⟩ := hi
      have hkey : r * (sectors + 1) + (sectors + 1) ≤ (rings - 2) * (sectors + 1) := by
        have hstep := Nat.mul_le_mul_right (sectors + 1)
          (show r + 1 ≤ rings - 2 by omega)
        calc r * (sectors + 1) + (sectors + 1) = (r + 1) * (sectors + 1) := by ring
          _ ≤ (rings - 2) * (sectors + 1) := hstep
      have hsplit : (rings - 1) * (sectors + 1) =
          (rings - 2) * (sectors + 1) + (sectors + 1) := by
        have h21 : rings - 1 = rings - 2 + 1 := by omega
        rw [h21, Nat.add_mul, one_mul]
      generalize hB : r * (sectors + 1) = B at hkey hmem
      generalize hC : (rings - 2) * (sectors + 1) = C at hkey hsplit
      generalize hA : (rings - 1) * (sectors + 1) = A at hsplit ⊢
      rcases hmem with h | h | h | h | h | h <;> omega
    · simp only [List.mem_flatMap, List.mem_range, List.mem_cons,
        List.not_mem_nil, or_false, sphereVertices_length] at hi
      obtain ⟨s, hs2, hmem⟩ := hi
      generalize hA : (rings - 1) * (sectors + 1) = A at hmono hmem ⊢
      rcases hmem with h | h | h <;> omega

/-- Witness for C9: the smallest admissible sphere, 2 rings and 1 sector. -/
theorem create_sphere_mesh_invariant_witness :
    (create_sphere 1 2 1).indices.length % 3 = 0 ∧
    (create_sphere 1 2 1).vertices.length = 2 + (2 - 1) * (1 + 1) ∧
    ∀ i ∈ (create_sphere 1 2 1).indices, i < (create_sphere 1 2 1).vertices.length :=
  create_sphere_mesh_invariant 1 2 1 (by omega) (by omega)

end Lab5
